import Mathlib

/-!
Verification of the MassGen-Viewer ingestion core (src/app.js).

This file gives a shallow embedding, in Lean 4, of the algorithmic core of
the viewer: the restricted YAML parser (`parseYaml`, `parseYamlValue`), the
path classifier (`extractTurnAttemptFromPath`, `extractAgentFromPath`), the
turn-partitioned aggregator (`extractSessionData`), the coordination graph
builder (`renderTimeline`'s data pipeline), and the vote-label resolution of
`renderAnswers`.  JavaScript strings are modelled as `List Char` (all inputs
of interest are ASCII, where JS UTF-16 code-unit indexing agrees with
character indexing); JS numbers that the core treats as integers are
modelled as `Int`/`Nat` (floating-point rounding is out of scope: no claim
depends on it); JS objects are modelled as insertion-ordered association
lists with overwrite-in-place update, matching `Object.entries` iteration
order for non-index string keys; absent object fields (`undefined`) are
modelled with `Option`.

All definitions are translated from src/app.js; the one exception is
`scalarCoerceSpec`, which transcribes the specification's wording of the
scalar-coercion rules so that the implementation can be proved equivalent
to it.
-/

namespace MGV

/-! ## JS-style primitives on lists of characters -/

/-- Insertion-ordered association-list update, with JS object semantics:
an existing key is overwritten in place (keeping its position), a new key
is appended at the end. -/
def jsObjSet {α : Type} (es : List (String × α)) (k : String) (v : α) :
    List (String × α) :=
  match es with
  | [] => [(k, v)]
  | (k', v') :: r => if k' = k then (k, v) :: r else (k', v') :: jsObjSet r k v

/-- JS object property read: `none` models `undefined`. -/
def jsObjGet {α : Type} (es : List (String × α)) (k : String) : Option α :=
  match es with
  | [] => none
  | (k', v') :: r => if k' = k then some v' else jsObjGet r k

/-- Helper for the character-list splitters: prepend a character to the
first piece of a split result. -/
def consHead (a : Char) : List (List Char) → List (List Char)
  | [] => [[a]]
  | h :: t => (a :: h) :: t

/-- JS `String.prototype.split` with a single-character separator. -/
def splitChar (c : Char) : List Char → List (List Char)
  | [] => [[]]
  | a :: r => if a = c then [] :: splitChar c r else consHead a (splitChar c r)

/-- JS `String.prototype.split("__")`: leftmost-first, non-overlapping. -/
def splitUU : List Char → List (List Char)
  | [] => [[]]
  | [a] => [[a]]
  | a :: b :: r =>
    if a = '_' ∧ b = '_' then [] :: splitUU r
    else consHead a (splitUU (b :: r))

/-- JS `String.prototype.includes` (substring search). -/
def hasSub (pat : List Char) : List Char → Bool
  | [] => pat.isEmpty
  | c :: r => pat.isPrefixOf (c :: r) || hasSub pat r

/-- JS `String.prototype.trim` restricted to the ASCII whitespace the
export format uses. -/
def trimL (l : List Char) : List Char :=
  ((l.dropWhile Char.isWhitespace).reverse.dropWhile Char.isWhitespace).reverse

/-- JS `String.prototype.indexOf` for a single character (`none` models
the JS result `-1`). -/
def idxOfChar (c : Char) : List Char → Option Nat
  | [] => none
  | a :: r => if a = c then some 0 else (idxOfChar c r).map (· + 1)

/-- Numeric value of a list of decimal digits (the exact value of JS
`parseInt(s, 10)` on an all-digit string; JS float precision loss beyond
2^53 is out of scope). -/
def natOfDigits (l : List Char) : Nat :=
  l.foldl (fun n c => 10 * n + (c.toNat - '0'.toNat)) 0

/-- The single-quote character, i.e. the JS literal `'\''`. -/
def sq : Char := Char.ofNat 39

/-- The double-quote character. -/
def dq : Char := Char.ofNat 34

/-- Decimal rendering of a natural number, as JS template literals
produce for a non-negative integer. -/
def natToStr (n : Nat) : String := Nat.repr n

/-! ## The YAML/JSON value model

`YVal` models the dynamically-typed JS values the core passes around:
`null`, booleans, numbers, strings, arrays, and plain objects.  Integral
numbers are modelled exactly as `Int`; a fractional numeric literal is
kept as its source token (`vfloat`), since no claim depends on
floating-point values.  Objects are insertion-ordered association lists. -/

inductive YVal where
  | vnull
  | vbool (b : Bool)
  | vint (n : Int)
  | vfloat (tok : String)
  | vstr (s : String)
  | varr (items : List YVal)
  | vmap (entries : List (String × YVal))

/-- JS `typeof content === 'object'`: true for objects, arrays and `null`. -/
def isObjJS : YVal → Bool
  | .vnull => true
  | .varr _ => true
  | .vmap _ => true
  | _ => false

/-- JS `typeof content === 'string'`. -/
def isStrJS : YVal → Bool
  | .vstr _ => true
  | _ => false

/-- JS truthiness of a `YVal`: `null`, `false`, `0` and `""` are falsy
(a fractional token is nonzero in every input the format produces, and is
modelled as truthy). -/
def jsTruthy : YVal → Bool
  | .vnull => false
  | .vbool b => b
  | .vint n => n ≠ 0
  | .vfloat _ => true
  | .vstr s => s ≠ ""
  | .varr _ => true
  | .vmap _ => true

/-- JS `a || b` on a possibly-absent value: the left operand when it is
present and truthy, otherwise the right operand. -/
def jsOrY (a : Option YVal) (b : YVal) : YVal :=
  match a with
  | some v => if jsTruthy v then v else b
  | none => b

/-- Field read on a `YVal` that JS would write `v.k` (undefined unless
`v` is an object with that key). -/
def mget (v : YVal) (k : String) : Option YVal :=
  match v with
  | .vmap es => jsObjGet es k
  | _ => none

/-! ## ScalarCoercer: `parseYamlValue` (src/app.js lines 299-312) -/

/-- The full-match test for the regex `^-?\d+$`. -/
def isIntTok (l : List Char) : Bool :=
  match l with
  | [] => false
  | '-' :: r => !r.isEmpty && r.all Char.isDigit
  | _ => l.all Char.isDigit

/-- The full-match test for the regex `^-?\d+\.\d+$`. -/
def isFloatTok (l : List Char) : Bool :=
  let core := match l with
    | '-' :: r => r
    | _ => l
  let a := core.takeWhile Char.isDigit
  let r := core.dropWhile Char.isDigit
  !a.isEmpty &&
    match r with
    | '.' :: b => !b.isEmpty && b.all Char.isDigit
    | _ => false

/-- Value of an integer token (sign and digits), the exact value JS
`parseInt(str, 10)` computes on a `^-?\d+$` match. -/
def intOfTok (l : List Char) : Int :=
  match l with
  | '-' :: r => -(natOfDigits r : Int)
  | _ => (natOfDigits l : Int)

/-- Does the token start and end with quote character `q` (JS
`str.startsWith(q) && str.endsWith(q)`; a single lone quote satisfies
both, exactly as in JS)? -/
def isQuotedWith (q : Char) (l : List Char) : Bool :=
  l.head? = some q && l.getLast? = some q

/-- JS `str.slice(1, -1)`. -/
def sliceInner (l : List Char) : List Char := (l.drop 1).dropLast

/-- `parseYamlValue` from src/app.js, the scalar coercer: translated
clause by clause in source order. -/
def parseYamlValue (s : String) : YVal :=
  let l := s.data
  if s = "" then .vnull
  else if s = "true" then .vbool true
  else if s = "false" then .vbool false
  else if s = "null" ∨ s = "~" then .vnull
  else if isIntTok l then .vint (intOfTok l)
  else if isFloatTok l then .vfloat s
  else if isQuotedWith sq l ∨ isQuotedWith dq l then .vstr (String.mk (sliceInner l))
  else .vstr s

/-- The scalar-coercion rules as the specification words them (priority
order: empty or `null`/`~`, then booleans, then integer, then float, then
quote unwrapping, then the token itself).  This is the one definition
written from the spec rather than the source, for the refinement claim
about `parseYamlValue`. -/
def scalarCoerceSpec (s : String) : YVal :=
  let l := s.data
  if s = "" ∨ s = "null" ∨ s = "~" then .vnull
  else if s = "true" then .vbool true
  else if s = "false" then .vbool false
  else if isIntTok l then .vint (intOfTok l)
  else if isFloatTok l then .vfloat s
  else if isQuotedWith sq l ∨ isQuotedWith dq l then .vstr (String.mk (sliceInner l))
  else .vstr s

/-! ## YamlParser: `parseYaml` (src/app.js lines 218-297)

The JS parser mutates a tree of objects through aliased references held in
a stack of frames.  We model each frame's `obj` reference as the access
path from the root, and the mutations as functional updates at that path.
A JS write of a string key onto an array (`arr[k] = v`, which creates a
non-index property invisible to iteration and serialisation) is modelled
as a no-op on the visible structure. -/

/-- One step of an access path into a `YVal` tree. -/
inductive Step where
  | fld (k : String)
  | idx (n : Nat)

/-- Read the node an access path points at. -/
def getPath : YVal → List Step → Option YVal
  | v, [] => some v
  | .vmap es, .fld k :: rest =>
    match jsObjGet es k with
    | some v => getPath v rest
    | none => none
  | .varr its, .idx i :: rest =>
    match its.get? i with
    | some v => getPath v rest
    | none => none
  | _, _ => none

/-- Replace the node an access path points at (no-op when the path does
not resolve, which never happens for the paths the parser builds). -/
def setPath : YVal → List Step → YVal → YVal
  | _, [], x => x
  | .vmap es, .fld k :: rest, x =>
    match jsObjGet es k with
    | some v => .vmap (jsObjSet es k (setPath v rest x))
    | none => .vmap es
  | .varr its, .idx i :: rest, x =>
    match its.get? i with
    | some v => .varr (its.set i (setPath v rest x))
    | none => .varr its
  | v, _, _ => v

/-- `parent[key] = v` where `parent` is the node at `p`: JS object-key
assignment; on an array it creates an invisible non-index property, so the
visible structure is unchanged; on a scalar it is silently ignored. -/
def setKeyAt (root : YVal) (p : List Step) (k : String) (v : YVal) : YVal :=
  match getPath root p with
  | some (.vmap es) => setPath root p (.vmap (jsObjSet es k v))
  | _ => root

/-- A parser stack frame: the JS `{ obj, indent, key }` with the aliased
`obj` reference replaced by its access path. -/
structure Frame where
  path : List Step
  indent : Int
  key : Option String

/-- The JS `while` loop popping frames whose indent is ≥ the current
line's indent, never popping the root frame.  The stack is a list with
the top frame first and the root frame last. -/
def popFrames (ind : Int) : List Frame → List Frame
  | [f] => [f]
  | f :: rest => if f.indent ≥ ind then popFrames ind rest else f :: rest
  | [] => []

/-- JS truthiness of the frame's `key` (`null` and `''` are falsy). -/
def keyTruthy : Option String → Option String
  | some s => if s = "" then none else some s
  | none => none

/-- Process one non-blank, non-comment line of YAML input.
State: the root value and the frame stack (top first). -/
def yamlLineStep (root : YVal) (stack : List Frame) (line : List Char) :
    YVal × List Frame :=
  let ind : Int := ((line.takeWhile Char.isWhitespace).length : Int)
  let content := trimL line
  let stack1 := popFrames ind stack
  let top := stack1.headD ⟨[], -2, none⟩
  if ['-', ' '].isPrefixOf content then
    let afterDash := content.drop 2
    match idxOfChar ':' afterDash with
    | some ci =>
      if ci > 0 then
        let key := String.mk (trimL (afterDash.take ci))
        let v := String.mk (trimL (afterDash.drop (ci + 1)))
        -- convert the parent to an array in place when it is not one,
        -- reaching through the grandparent frame
        let converted : YVal × List Frame :=
          match getPath root top.path with
          | some (.varr _) => (root, stack1)
          | _ =>
            match stack1 with
            | _ :: gp :: _ =>
              match keyTruthy top.key with
              | some lastKey =>
                let arrPath := gp.path ++ [Step.fld lastKey]
                match getPath root arrPath with
                | some _ =>
                  (setPath root arrPath (.varr []),
                   ⟨arrPath, top.indent, some lastKey⟩ :: stack1.tail)
                | none => (root, stack1)
              | none => (root, stack1)
            | _ => (root, stack1)
        let root1 := converted.1
        let stack2 := converted.2
        let top1 := stack2.headD ⟨[], -2, none⟩
        let newObj : YVal :=
          .vmap [(key, if v = "" then .vmap [] else parseYamlValue v)]
        match getPath root1 top1.path with
        | some (.varr its) =>
          (setPath root1 top1.path (.varr (its ++ [newObj])),
           ⟨top1.path ++ [Step.idx its.length], ind + 2, some key⟩ :: stack2)
        | _ => (root1, stack2)
      else
        -- bare "- value" item
        let v := parseYamlValue (String.mk (trimL afterDash))
        match getPath root top.path with
        | some (.varr its) => (setPath root top.path (.varr (its ++ [v])), stack1)
        | _ => (root, stack1)
    | none =>
      -- "- value" with no colon at all: same bare-item branch
      let v := parseYamlValue (String.mk (trimL afterDash))
      match getPath root top.path with
      | some (.varr its) => (setPath root top.path (.varr (its ++ [v])), stack1)
      | _ => (root, stack1)
  else
    match idxOfChar ':' content with
    | some ci =>
      if ci > 0 then
        let key := String.mk (trimL (content.take ci))
        let v := String.mk (trimL (content.drop (ci + 1)))
        if v = "" then
          (setKeyAt root top.path key (.vmap []),
           ⟨top.path ++ [Step.fld key], ind, some key⟩ :: stack1)
        else
          (setKeyAt root top.path key (parseYamlValue v), stack1)
      else (root, stack1)
    | none => (root, stack1)

/-- Is the line skipped (blank, or its trimmed content starts with `#`)? -/
def yamlSkipLine (line : List Char) : Bool :=
  trimL line = [] || ['#'].isPrefixOf (trimL line)

/-- `parseYaml` from src/app.js: indentation-stack parsing of the
restricted YAML subset.  The root frame sits at indent -2. -/
def parseYaml (s : String) : YVal :=
  let lines := splitChar '\n' s.data
  let init : YVal × List Frame := (.vmap [], [⟨[], -2, none⟩])
  let fin := lines.foldl
    (fun st line => if yamlSkipLine line then st else yamlLineStep st.1 st.2 line)
    init
  fin.1

/-! ## PathClassifier (src/app.js lines 172-181 and 433-475)

`extractTurnAttemptFromPath` matches the anchored regex
`^turn_(\d+)(?:__|\/)+attempt_(\d+)(?:__|\/)`.  The alternation `__`/`/`
is first-character-deterministic and no separator can start where
`attempt_` matches, so greedy left-to-right consumption without
backtracking decides the regex exactly; the parser below does that. -/

/-- Strip a literal prefix, returning the remainder. -/
def stripLit (pat l : List Char) : Option (List Char) :=
  if pat.isPrefixOf l then some (l.drop pat.length) else none

/-- Consume one separator token `__` or `/`. -/
def oneSep : List Char → Option (List Char)
  | '/' :: r => some r
  | '_' :: '_' :: r => some r
  | _ => none

/-- Greedily consume zero or more further separator tokens. -/
def sepsStar : List Char → List Char
  | [] => []
  | [c] => if c = '/' then [] else [c]
  | a :: b :: r =>
    if a = '/' then sepsStar (b :: r)
    else if a = '_' ∧ b = '_' then sepsStar r
    else a :: b :: r

/-- Consume one or more separator tokens (the regex `(?:__|\/)+`). -/
def sepsPlus (l : List Char) : Option (List Char) :=
  (oneSep l).map sepsStar

/-- `extractTurnAttemptFromPath`: the `(turn, attempt)` captures of the
prefix regex, or `none` when it does not match. -/
def extractTurnAttempt (l : List Char) : Option (Nat × Nat) :=
  match stripLit "turn_".data l with
  | none => none
  | some r1 =>
    let d1 := r1.takeWhile Char.isDigit
    let r2 := r1.dropWhile Char.isDigit
    if d1.isEmpty then none
    else
      match sepsPlus r2 with
      | none => none
      | some r3 =>
        match stripLit "attempt_".data r3 with
        | none => none
        | some r4 =>
          let d2 := r4.takeWhile Char.isDigit
          let r5 := r4.dropWhile Char.isDigit
          if d2.isEmpty then none
          else if (oneSep r5).isSome then some (natOfDigits d1, natOfDigits d2)
          else none

/-- The compound turn key `"{turn}_{attempt}"` of a path, when the
turn/attempt prefix is present (`info.key` in the source). -/
def turnKeyOf (l : List Char) : Option String :=
  (extractTurnAttempt l).map fun ta => natToStr ta.1 ++ "_" ++ natToStr ta.2

/-- `extractTurnFromPath`: just the turn number. -/
def extractTurnOf (l : List Char) : Option Nat :=
  (extractTurnAttempt l).map (·.1)

/-- The timestamp test `\d{8}_\d+` anchored at the start of a token:
eight digits, an underscore, and at least one further digit. -/
def matchesTs (l : List Char) : Bool :=
  (l.take 8).length = 8 && (l.take 8).all Char.isDigit &&
    match l.drop 8 with
    | '_' :: c :: _ => c.isDigit
    | _ => false

/-- The full-match test for `^[a-z]+_[a-z]$`: one or more lowercase
letters, an underscore, and a final lowercase letter. -/
def matchesAgentPat (l : List Char) : Bool :=
  match l.reverse with
  | c :: '_' :: rest => c.isLower && !rest.isEmpty && rest.all Char.isLower
  | _ => false

/-- The flattened-path loop of `extractAgentFromPath`: scan the `__`-split
parts, skipping `turn_*`, `attempt_*` and `final` tokens, until a part
starting with `agent_` or matching the two-token lowercase pattern is
found; its successor is the timestamp when it matches `\d{8}_\d+`. -/
def findAgentFlat : List (List Char) → Option (List Char) × Option (List Char)
  | [] => (none, none)
  | p :: rest =>
    if "turn_".data.isPrefixOf p || "attempt_".data.isPrefixOf p then
      findAgentFlat rest
    else if p = "final".data then findAgentFlat rest
    else if "agent_".data.isPrefixOf p || matchesAgentPat p then
      (some p,
       match rest with
       | q :: _ => if matchesTs q then some q else none
       | [] => none)
    else findAgentFlat rest

/-- The nested-path prefix skip: drop the leading run of segments starting
with `turn_` or `attempt_` (the `startIdx` loop of the source). -/
def skipTurnSegs : List (List Char) → List (List Char)
  | [] => []
  | p :: rest =>
    if "turn_".data.isPrefixOf p || "attempt_".data.isPrefixOf p then
      skipTurnSegs rest
    else p :: rest

/-- JS `x || null` on a path segment: an absent or empty segment becomes
`null`. -/
def segOrNull : Option (List Char) → Option (List Char)
  | some [] => none
  | some l => some l
  | none => none

/-- `extractAgentFromPath`: `(agentId, timestamp)`.  The flattened branch
runs when the path contains `__` and no `/`; otherwise the nested branch
splits on `/`. -/
def extractAgentL (l : List Char) : Option (List Char) × Option (List Char) :=
  if hasSub ['_', '_'] l && !l.contains '/' then
    findAgentFlat (splitUU l)
  else
    let parts := skipTurnSegs (splitChar '/' l)
    (segOrNull parts.head?, segOrNull (parts.drop 1).head?)

/-- The recovered identity of a path: turn, attempt, agent id and
timestamp (the `PathIdentity` of the specification). -/
structure PathIdentity where
  turn : Option Nat
  attempt : Option Nat
  agentId : Option String
  timestamp : Option String
  deriving DecidableEq, Repr

/-- Classify a path: `extractTurnAttemptFromPath` for turn/attempt
together with `extractAgentFromPath` for agent/timestamp. -/
def classifyL (l : List Char) : PathIdentity :=
  let ta := extractTurnAttempt l
  let at_ := extractAgentL l
  ⟨ta.map (·.1), ta.map (·.2), (at_.1).map String.mk, (at_.2).map String.mk⟩

/-- Classification of a path given as a string. -/
def classify (s : String) : PathIdentity := classifyL s.data

/-- Replace every `/` with `__` (the flattening the gist export applies,
inverse direction of `unflattenPath`). -/
def flattenL : List Char → List Char
  | [] => []
  | c :: r => if c = '/' then '_' :: '_' :: flattenL r else c :: flattenL r

/-- String version of `flattenL`. -/
def flattenS (s : String) : String := String.mk (flattenL s.data)

/-! ## TurnAggregator: `extractSessionData` (src/app.js lines 480-762)

We model the parts of `extractSessionData` that populate the turn
buckets (`perTurnData`), the global session documents, the answers map
and the votes map.  The remaining outputs of the function (agent outputs,
execution metadata, workspace files, manifest handling and the session
summary) write to other fields and never touch these structures, so they
are omitted from the model. -/

/-- The record built for an `answer.txt`-like file (`answerData` in the
source).  In JS, `turnAttempt?.turn || null` turns a turn number 0 into
`null`; the model reproduces that. -/
structure AnswerRec where
  label : String
  agent_id : String
  timestamp : String
  content : String
  turn : Option Nat
  attempt : Option Nat
  turnKey : Option String
  type : String
  deriving DecidableEq, Repr

/-- The record pushed for a `vote.json` file.  Fields read off the parsed
JSON object keep their raw `YVal` (with `none` for an absent field),
except the ones the source normalises with `||`. -/
structure VoteRec where
  agent_id : String
  voter_id : YVal
  voted_for : Option YVal
  voted_for_label : Option YVal
  voted_for_anon : Option YVal
  reason : Option YVal
  timestamp : String
  coordination_round : Option YVal
  available_options : YVal
  agent_mapping : YVal
  turn : Option Nat

/-- One per-`TurnKey` bucket of `perTurnData`. -/
structure TurnBucket where
  metrics : YVal
  status : YVal
  coordination : YVal
  snapshotMappings : YVal
  answers : List (String × AnswerRec)
  votes : List (String × List VoteRec)
  turnNumber : Nat
  attemptNumber : Nat

/-- The modelled output of `extractSessionData`. -/
structure SessionDataM where
  metrics : YVal
  status : YVal
  coordination : YVal
  snapshotMappings : YVal
  perTurnData : List (String × TurnBucket)
  answers : List (String × AnswerRec)
  votes : List (String × List VoteRec)

/-- JS `x || null` on an optional number (0 is falsy). -/
def natOrNull : Option Nat → Option Nat
  | some 0 => none
  | x => x

/-- Does the path name a session-level document of the given suffix, with
object content (`path.endsWith(suffix) && typeof content === 'object'`)? -/
def isKindFile (suffix : String) (p : List Char) (c : YVal) : Bool :=
  suffix.data.isSuffixOf p && isObjJS c

/-- Update the bucket at key `k` (the JS `perTurnData[dataKey].f = …`;
the bucket always exists at this point because the same pass created it). -/
def updBucket (pt : List (String × TurnBucket)) (k : String)
    (f : TurnBucket → TurnBucket) : List (String × TurnBucket) :=
  match jsObjGet pt k with
  | some b => jsObjSet pt k (f b)
  | none => pt

/-- State of the first pass: the four global documents plus the
per-turn buckets. -/
structure Pass1State where
  metrics : YVal
  status : YVal
  coordination : YVal
  snapshotMappings : YVal
  perTurnData : List (String × TurnBucket)

/-- The freshly-initialised bucket for turn/attempt `tn`. -/
def freshBucket (tn : Nat × Nat) : TurnBucket :=
  ⟨.vmap [], .vmap [], .vmap [], .vmap [], [], [], tn.1, tn.2⟩

/-- How one file of the first pass may evolve the bucket at key `k` from
`b0` to `b`: votes and answers are untouched, and each session-document
field is either untouched or set to this file's content when the file is
of that kind and carries this very turn key. -/
def FileTouch (pc : String × YVal) (k : String) (b0 b : TurnBucket) : Prop :=
  b.votes = b0.votes ∧ b.answers = b0.answers ∧
  (b.metrics = b0.metrics ∨
    (isKindFile "metrics_summary.json" pc.1.data pc.2 = true ∧
     turnKeyOf pc.1.data = some k ∧ b.metrics = pc.2)) ∧
  (b.status = b0.status ∨
    (isKindFile "status.json" pc.1.data pc.2 = true ∧
     turnKeyOf pc.1.data = some k ∧ b.status = pc.2)) ∧
  (b.coordination = b0.coordination ∨
    (isKindFile "coordination_events.json" pc.1.data pc.2 = true ∧
     turnKeyOf pc.1.data = some k ∧ b.coordination = pc.2)) ∧
  (b.snapshotMappings = b0.snapshotMappings ∨
    (isKindFile "snapshot_mappings.json" pc.1.data pc.2 = true ∧
     turnKeyOf pc.1.data = some k ∧ b.snapshotMappings = pc.2))

/-- The bucket-initialisation step of the first pass: create the bucket
of this file's turn key when it does not yet exist. -/
def bucketInit (ta : Option (Nat × Nat)) (dk : Option String)
    (st : Pass1State) : Pass1State :=
  ⟨st.metrics, st.status, st.coordination, st.snapshotMappings,
   match dk, ta with
   | some k, some tn =>
     (match jsObjGet st.perTurnData k with
      | some _ => st.perTurnData
      | none => jsObjSet st.perTurnData k (freshBucket tn))
   | _, _ => st.perTurnData⟩

/-- One routing stage of the first pass: when the path ends in `suffix`
and the content is an object, store the content into the matching global
field (`setG`) and, when the turn key resolves, into that bucket's
matching field (`setB`). -/
def kindRoute (suffix : String) (setG : YVal → Pass1State → Pass1State)
    (setB : YVal → TurnBucket → TurnBucket) (dk : Option String)
    (p : List Char) (c : YVal) (st : Pass1State) : Pass1State :=
  if isKindFile suffix p c then
    let st' := setG c st
    ⟨st'.metrics, st'.status, st'.coordination, st'.snapshotMappings,
     match dk with
     | some k => updBucket st.perTurnData k (setB c)
     | none => st.perTurnData⟩
  else st

/-- First pass of `extractSessionData` (lines 492-526): initialise the
bucket for every file with a resolvable turn key, then route the four
session-document kinds, in source order, into the globals and the
file's bucket. -/
def pass1Step (st : Pass1State) (pc : String × YVal) : Pass1State :=
  let p := pc.1.data
  let c := pc.2
  let ta := extractTurnAttempt p
  let dk := turnKeyOf p
  let st1 := bucketInit ta dk st
  let st2 := kindRoute "metrics_summary.json"
    (fun v s => ⟨v, s.status, s.coordination, s.snapshotMappings, s.perTurnData⟩)
    (fun v b => { b with metrics := v }) dk p c st1
  let st3 := kindRoute "status.json"
    (fun v s => ⟨s.metrics, v, s.coordination, s.snapshotMappings, s.perTurnData⟩)
    (fun v b => { b with status := v }) dk p c st2
  let st4 := kindRoute "coordination_events.json"
    (fun v s => ⟨s.metrics, s.status, v, s.snapshotMappings, s.perTurnData⟩)
    (fun v b => { b with coordination := v }) dk p c st3
  kindRoute "snapshot_mappings.json"
    (fun v s => ⟨s.metrics, s.status, s.coordination, v, s.perTurnData⟩)
    (fun v b => { b with snapshotMappings := v }) dk p c st4

/-- Is this file an answer document with string content
(`(path.endsWith('__answer.txt') || path.includes('/answer.txt')) &&
typeof content === 'string'`)? -/
def isAnswerFile (p : List Char) (c : YVal) : Bool :=
  ("__answer.txt".data.isSuffixOf p || hasSub "/answer.txt".data p) && isStrJS c

/-- The answer record an answer file yields, when its agent id and
timestamp are both recovered and truthy. -/
def answerRecOf (p : List Char) (c : YVal) : Option (String × AnswerRec) :=
  if isAnswerFile p c then
    let ta := extractTurnAttempt p
    let dataKey := turnKeyOf p
    let a := extractAgentL p
    match segOrNull a.1, segOrNull a.2, c with
    | some aid, some ts, .vstr content =>
      let agentId := String.mk aid
      let timestamp := String.mk ts
      let label := agentId ++ "." ++ timestamp
      some (label,
        ⟨label, agentId, timestamp, content,
         natOrNull (ta.map (·.1)), natOrNull (ta.map (·.2)), dataKey,
         if hasSub "final/".data p || hasSub "__final__".data p
         then "final_answer" else "answer"⟩)
    | _, _, _ => none
  else none

/-- The answers pass (lines 548-574): store each answer record in the
global label-keyed map and, when a bucket for its key exists, in that
bucket. -/
def answersStep (st : List (String × AnswerRec) × List (String × TurnBucket))
    (pc : String × YVal) :
    List (String × AnswerRec) × List (String × TurnBucket) :=
  match answerRecOf pc.1.data pc.2 with
  | some (label, ad) =>
    let glob := jsObjSet st.1 label ad
    let pt :=
      match turnKeyOf pc.1.data with
      | some k =>
        match jsObjGet st.2 k with
        | some _ => updBucket st.2 k fun b => { b with answers := jsObjSet b.answers label ad }
        | none => st.2
      | none => st.2
    (glob, pt)
  | none => st

/-- Is this file a vote document with object content
(`(path.endsWith('/vote.json') || path.endsWith('__vote.json')) &&
typeof content === 'object'`)? -/
def isVoteFile (p : List Char) (c : YVal) : Bool :=
  ("/vote.json".data.isSuffixOf p || "__vote.json".data.isSuffixOf p) && isObjJS c

/-- The vote record a vote file yields, when its agent id is recovered
and truthy. -/
def voteRecOf (p : List Char) (c : YVal) : Option (String × VoteRec) :=
  if isVoteFile p c then
    let a := extractAgentL p
    match segOrNull a.1 with
    | some aid =>
      let agentId := String.mk aid
      some (agentId,
        ⟨agentId,
         jsOrY (mget c "voter_id") (.vstr agentId),
         mget c "voted_for",
         mget c "voted_for_label",
         mget c "voted_for_anon",
         mget c "reason",
         (segOrNull a.2).elim "" String.mk,
         mget c "coordination_round",
         jsOrY (mget c "available_options") (.varr []),
         jsOrY (mget c "agent_mapping") (.vmap []),
         extractTurnOf p⟩)
    | none => none
  else none

/-- The votes pass (lines 577-601): append every vote record to its
agent's history list. -/
def votesStep (votes : List (String × List VoteRec)) (pc : String × YVal) :
    List (String × List VoteRec) :=
  match voteRecOf pc.1.data pc.2 with
  | some (agentId, vr) =>
    match jsObjGet votes agentId with
    | some l => jsObjSet votes agentId (l ++ [vr])
    | none => jsObjSet votes agentId [vr]
  | none => votes

/-- The sort key of the vote comparator
`(a.coordination_round || 0) - (b.coordination_round || 0)`.  A present,
truthy round is converted to a number; numeric coercion of a
non-integral value (JS `NaN` cases and fractional rounds) is abstracted
to 0 — the claims about vote ordering assume integral or absent rounds. -/
def roundKey (v : VoteRec) : Int :=
  match v.coordination_round with
  | some r => if jsTruthy r then (match r with | .vint n => n | .vbool true => 1 | _ => 0) else 0
  | none => 0

/-- The comparator's ordering on vote records. -/
def voteLe (a b : VoteRec) : Prop := roundKey a ≤ roundKey b

instance : DecidableRel voteLe := fun a b => inferInstanceAs (Decidable (roundKey a ≤ roundKey b))

instance : IsTotal VoteRec voteLe := ⟨fun a b => Int.le_total (roundKey a) (roundKey b)⟩

instance : IsTrans VoteRec voteLe := ⟨fun _ _ _ => Int.le_trans⟩

/-- JS `Array.prototype.sort` with the round comparator.  The ECMA-262
sort is stable, and a stable sort by a total-preorder key has exactly one
possible output, so insertion sort with the non-strict key order models
it exactly. -/
def sortVotes (l : List VoteRec) : List VoteRec := List.insertionSort voteLe l

/-- The modelled `extractSessionData`: first pass, answers pass, votes
pass, then the per-agent vote sort. -/
def extractSessionDataM (files : List (String × YVal)) : SessionDataM :=
  let s1 := files.foldl pass1Step ⟨.vmap [], .vmap [], .vmap [], .vmap [], []⟩
  let s2 := files.foldl answersStep ([], s1.perTurnData)
  let votesPre := files.foldl votesStep []
  ⟨s1.metrics, s1.status, s1.coordination, s1.snapshotMappings,
   s2.2, s2.1, votesPre.map fun kv => (kv.1, sortVotes kv.2)⟩

/-! ## CoordinationGraphBuilder: the data pipeline of `renderTimeline`
(src/app.js lines 1399-1536)

Coordination events arrive as parsed JSON; the fields the pipeline reads
(`event_type`, `agent_id`, `timestamp`, `context.voted_for`,
`context.answer_label`, `details`) are modelled as typed optional fields
(`none` = absent), with timestamps as integers.  The HTML generation that
follows the row computation is presentation and out of scope. -/

/-- The fields of `event.context` the pipeline reads. -/
structure EvCtx where
  voted_for : Option String
  answer_label : Option String
  deriving DecidableEq, Repr

/-- A coordination event as consumed by the graph builder. -/
structure Event where
  event_type : Option String
  agent_id : Option String
  timestamp : Option Int
  context : Option EvCtx
  details : Option String
  deriving DecidableEq, Repr

/-- `event.agent_id || 'unknown'`. -/
def keyOfEvent (e : Event) : String :=
  match e.agent_id with
  | some s => if s = "" then "unknown" else s
  | none => "unknown"

/-- `event.timestamp || 0` (a present timestamp of 0 and an absent one
coincide, as under JS falsiness). -/
def tsOfEvent (e : Event) : Int :=
  match e.timestamp with
  | some t => t
  | none => 0

/-- The graph-event filter: keep `new_answer`, `vote_cast` and
`final_answer` events. -/
def filterGraph (evts : List Event) : List Event :=
  evts.filter fun e =>
    e.event_type = some "new_answer" ∨ e.event_type = some "vote_cast" ∨
      e.event_type = some "final_answer"

/-- The `final_answer` dedup: walking the filtered list in order, keep a
`final_answer` event only when its agent key has not been seen before. -/
def dedupFinal : List Event → List String → List Event
  | [], _ => []
  | e :: es, seen =>
    if e.event_type = some "final_answer" then
      let k := keyOfEvent e
      if k ∈ seen then dedupFinal es seen
      else e :: dedupFinal es (k :: seen)
    else e :: dedupFinal es seen

/-- `session_metadata?.start_time || events[0]?.timestamp || 0`, where
`events` is the raw (unfiltered, unsorted) event list. -/
def computeStartTime (mdStart : Option Int) (events : List Event) : Int :=
  let fb : Int :=
    match events.head? with
    | some e => tsOfEvent e
    | none => 0
  match mdStart with
  | some v => if v = 0 then fb else v
  | none => fb

/-- Lexicographic order on strings by character code, as the default JS
`Array.prototype.sort` comparison (`<` on strings) orders them. -/
def lexLt : List Char → List Char → Bool
  | [], [] => false
  | [], _ :: _ => true
  | _ :: _, [] => false
  | a :: as, b :: bs =>
    if a.val < b.val then true
    else if b.val < a.val then false
    else lexLt as bs

/-- The induced non-strict order used to sort the agent-id list. -/
def agentLe (a b : String) : Prop := lexLt b.data a.data = false

instance : DecidableRel agentLe := fun a b => inferInstanceAs (Decidable (lexLt b.data a.data = false))

/-- First occurrences, in order (JS `Set` insertion order). -/
def dedupFirst : List String → List String
  | [] => []
  | s :: r => s :: (dedupFirst r).filter (· ≠ s)

/-- The ordered agent list: truthy agent ids of the surviving events,
de-duplicated and sorted. -/
def agentsOf (deduped : List Event) : List String :=
  List.insertionSort agentLe
    (dedupFirst (deduped.filterMap fun e =>
      match e.agent_id with
      | some s => if s = "" then none else some s
      | none => none))

/-- Index of a string in a list (JS `indexOf`, `none` for -1). -/
def idxOf? (a : String) : List String → Option Nat
  | [] => none
  | s :: r => if s = a then some 0 else (idxOf? a r).map (· + 1)

/-- `agentToCol[agentId] ?? 0`. -/
def colOf (agents : List String) (a : String) : Nat := (idxOf? a agents).getD 0

/-- `agentToNum[agentId] || 1` (columns are 1-based for display). -/
def numOf (agents : List String) (a : String) : Nat :=
  match idxOf? a agents with
  | some i => i + 1
  | none => 1

/-- The timestamp order used to sort the surviving events.  JS
`Array.prototype.sort` is stable, so insertion sort by the non-strict
key order models it exactly. -/
def evtLe (a b : Event) : Prop := tsOfEvent a ≤ tsOfEvent b

instance : DecidableRel evtLe := fun a b => inferInstanceAs (Decidable (tsOfEvent a ≤ tsOfEvent b))

instance : IsTotal Event evtLe := ⟨fun a b => Int.le_total (tsOfEvent a) (tsOfEvent b)⟩

instance : IsTrans Event evtLe := ⟨fun _ _ _ => Int.le_trans⟩

/-- An entry of the first-pass label registry (`answerLabelToRowCol`). -/
structure RegEntry where
  row : Nat
  col : Nat
  agentId : String
  displayLabel : String
  internalLabel : String
  deriving DecidableEq, Repr

/-- JS `a || b` for optional strings (empty string is falsy). -/
def jsOrStr (a : Option String) (b : String) : String :=
  match a with
  | some s => if s = "" then b else s
  | none => b

/-- First pass over the sorted events: for every `new_answer`, bump the
agent's answer counter and register the display label.  The registry is a
JS object keyed by the display label (overwrite in place). -/
def buildRegistry (agents : List String) :
    List (Nat × Event) → List (String × Nat) → List (String × RegEntry) →
    List (String × RegEntry)
  | [], _, reg => reg
  | (i, e) :: rest, counts, reg =>
    if e.event_type = some "new_answer" then
      let agentId := keyOfEvent e
      let cnt := (jsObjGet counts agentId).getD 0 + 1
      let displayLabel := natToStr (numOf agents agentId) ++ "." ++ natToStr cnt
      let internalLabel :=
        jsOrStr (e.context.bind (·.answer_label)) (agentId ++ "." ++ natToStr cnt)
      buildRegistry agents rest (jsObjSet counts agentId cnt)
        (jsObjSet reg displayLabel
          ⟨i, colOf agents agentId, agentId, displayLabel, internalLabel⟩)
    else buildRegistry agents rest counts reg

/-- The case-insensitive search `/voted for\s*(\S+)/i` over the
`details` string: at each position, try to match `voted for` ignoring
case, skip whitespace, and capture a non-empty run of non-whitespace. -/
def detailsCapture : List Char → Option (List Char)
  | [] => none
  | c :: r =>
    if "voted for".data.isPrefixOf ((c :: r).map Char.toLower) then
      let cap := ((c :: r).drop 9).dropWhile Char.isWhitespace
        |>.takeWhile (fun x => !x.isWhitespace)
      if cap.isEmpty then detailsCapture r else some (String.mk cap).data
    else detailsCapture r

/-- `event.context?.voted_for || event.details?.match(...)?.[1] || null`. -/
def votedForAgentIdOf (e : Event) : Option String :=
  match e.context.bind (·.voted_for) with
  | some s => if s = "" then fallbackDetails e else some s
  | none => fallbackDetails e
where
  fallbackDetails (e : Event) : Option String :=
    match e.details with
    | some d =>
      match detailsCapture d.data with
      | some cap => some (String.mk cap)
      | none => none
    | none => none

/-- One output row of the graph builder.  `relSeconds` is the numeric
difference `event.timestamp - startTime` that the source then formats
with `toFixed(1)`; the formatting is presentation and out of scope. -/
structure Row where
  event : Event
  agentId : String
  col : Nat
  relSeconds : Int
  label : String
  contextAnswers : List String
  votedForLabel : Option String
  availableOptions : List String
  type : Option String
  deriving DecidableEq, Repr

/-- Second pass: build the row for the event at sorted position `i`. -/
def mkRow (agents : List String) (reg : List (String × RegEntry))
    (startTime : Int) (i : Nat) (e : Event) : Row :=
  let agentId := keyOfEvent e
  let relSeconds := tsOfEvent e - startTime
  let col := colOf agents agentId
  let agentNum := numOf agents agentId
  if e.event_type = some "new_answer" then
    let agentAnswerNum :=
      (reg.filter fun kv => kv.2.agentId = agentId ∧ kv.2.row ≤ i).length
    let label := natToStr agentNum ++ "." ++ natToStr agentAnswerNum
    let ctx := (reg.filter fun kv => kv.2.row < i).map (·.1)
    ⟨e, agentId, col, relSeconds, label, ctx, none, [], e.event_type⟩
  else if e.event_type = some "vote_cast" then
    let votedForLabel :=
      match votedForAgentIdOf e with
      | some vfa =>
        match idxOf? vfa agents with
        | some idx =>
          let cnt := (reg.filter fun kv => kv.2.agentId = vfa ∧ kv.2.row < i).length
          some (natToStr (idx + 1) ++ "." ++ natToStr cnt)
        | none => none
      | none => none
    let avail := (reg.filter fun kv => kv.2.row < i).map (·.1)
    ⟨e, agentId, col, relSeconds, "", [], votedForLabel, avail, e.event_type⟩
  else if e.event_type = some "final_answer" then
    ⟨e, agentId, col, relSeconds, "final", [], none, [], e.event_type⟩
  else
    ⟨e, agentId, col, relSeconds, "", [], none, [], e.event_type⟩

/-- Pair every list element with its index. -/
def withIdx {α : Type} (i : Nat) : List α → List (Nat × α)
  | [] => []
  | a :: r => (i, a) :: withIdx (i + 1) r

/-- The full row pipeline of `renderTimeline`: filter, dedup
`final_answer` per agent, sort by timestamp, assign labels, and emit one
row per surviving event (an empty surviving list renders a placeholder
instead, i.e. no rows). -/
def buildRows (mdStart : Option Int) (events : List Event) : List Row :=
  let graphEvents := filterGraph events
  let deduped := dedupFinal graphEvents []
  if deduped.isEmpty then []
  else
    let startTime := computeStartTime mdStart events
    let agents := agentsOf deduped
    let sortedEvents := List.insertionSort evtLe deduped
    let reg := buildRegistry agents (withIdx 0 sortedEvents) [] []
    (withIdx 0 sortedEvents).map fun ie => mkRow agents reg startTime ie.1 ie.2

/-! ## Vote-label resolution of `renderAnswers` (src/app.js lines
1996-2246)

`renderAnswers` groups intermediate answers by agent, forms the agent tab
list from the answer agents and the `status.agents` keys (sorted), builds
the fallback map `agentToLabelFallback`, and resolves each vote's display
label as `vote.voted_for_label || agentToLabelFallback[votedForRaw] ||
votedForRaw`.  The locale-collated sort of the answer list only permutes
answers within the grouping and does not affect the group sizes or key
sets this computation reads, so it is omitted. -/

/-- Group the non-final answers by agent: for each agent the number of
intermediate answers it has (the only datum of `answersByAgent` the
label fallback reads). -/
def answersCountByAgent (answers : List (String × AnswerRec)) (aid : String) : Nat :=
  (answers.filter fun kv => kv.2.type ≠ "final_answer" ∧ kv.2.agent_id = aid).length

/-- The set of agent ids with at least one intermediate answer, in
first-encounter order. -/
def answerAgents (answers : List (String × AnswerRec)) : List String :=
  dedupFirst ((answers.filter fun kv => kv.2.type ≠ "final_answer").map (·.2.agent_id))

/-- The agent tab list: answer agents plus `status.agents` keys,
de-duplicated and sorted (JS `Array.from(set).sort()`; the set is built
by inserting the answer agents first, then the status keys). -/
def agentIdsOf (answers : List (String × AnswerRec)) (statusAgents : List String) :
    List String :=
  List.insertionSort agentLe (dedupFirst (answerAgents answers ++ statusAgents))

/-- `agentToLabelFallback[aid]` for `aid` in the tab list:
`"{index+1}.{answersByAgent[aid]?.length || 1}"`. -/
def labelFallback (agentIds : List String) (answers : List (String × AnswerRec))
    (aid : String) : Option String :=
  match idxOf? aid agentIds with
  | some i =>
    let cnt := answersCountByAgent answers aid
    some (natToStr (i + 1) ++ "." ++ natToStr (if cnt = 0 then 1 else cnt))
  | none => none

/-- A string-coerced view of a raw `YVal` vote field used as an object
key and display text (vote documents carry strings here; other shapes
are abstracted by their display form). -/
def yvalKeyStr : YVal → String
  | .vstr s => s
  | .vnull => "null"
  | .vbool b => toString b
  | .vint n => toString n
  | .vfloat t => t
  | .varr _ => ""
  | .vmap _ => "[object Object]"

/-- The resolved display label of one vote (lines 2179-2181):
`vote.voted_for_label || agentToLabelFallback[votedForRaw] ||
votedForRaw`, with `votedForRaw = vote.voted_for || 'N/A'`. -/
def resolveVotedForLabel (answers : List (String × AnswerRec))
    (statusAgents : List String) (vote : VoteRec) : String :=
  let votedForRaw : String :=
    match vote.voted_for with
    | some v => if jsTruthy v then yvalKeyStr v else "N/A"
    | none => "N/A"
  let agentIds := agentIdsOf answers statusAgents
  let fromLabel : Option String :=
    match vote.voted_for_label with
    | some v => if jsTruthy v then some (yvalKeyStr v) else none
    | none => none
  match fromLabel with
  | some s => s
  | none =>
    match labelFallback agentIds answers votedForRaw with
    | some s => if s = "" then votedForRaw else s
    | none => votedForRaw

/-! ## Auxiliary definitions for the claim statements -/

/-- Is `e` a `final_answer` event whose agent key is `a`? -/
def isFinalKey (a : String) (e : Event) : Bool :=
  e.event_type == some "final_answer" && keyOfEvent e == a

/-- The vote records agent `a`'s files contribute, in encounter order
(before the sort). -/
def encounterVotes (files : List (String × YVal)) (a : String) : List VoteRec :=
  files.filterMap fun pc =>
    match voteRecOf pc.1.data pc.2 with
    | some (aid, vr) => if aid = a then some vr else none
    | none => none

/-- No two consecutive underscores, and the list does not end in an
underscore: the condition under which a piece survives a `__`-split
intact. -/
def noUU2 : List Char → Bool
  | [] => true
  | [a] => a ≠ '_'
  | a :: b :: r => !(a = '_' ∧ b = '_') && noUU2 (b :: r)

/-! ## Concrete inputs used by the claim theorems and witnesses -/

/-- The YAML scenario input of the specification:
two sequence items with a key indented under each. -/
def c1Yaml : String := "agents:\n  - id: a\n    model: m1\n  - id: b\n    model: m2\n"

/-- The value the specification claims `c1Yaml` parses to. -/
def c1Claimed : YVal :=
  .vmap [("agents", .varr
    [.vmap [("id", .vstr "a"), ("model", .vstr "m1")],
     .vmap [("id", .vstr "b"), ("model", .vstr "m2")]])]

/-- The scenario events of the coordination-graph claim: two answers and
one vote. -/
def c5Events : List Event :=
  [⟨some "new_answer", some "agent_a", some 0, none, none⟩,
   ⟨some "new_answer", some "agent_b", some 1, none, none⟩,
   ⟨some "vote_cast", some "agent_a", some 2, some ⟨some "agent_b", none⟩, none⟩]

/-- Two `final_answer` events for the same agent whose input order
disagrees with their timestamp order. -/
def cdupLater : Event := ⟨some "final_answer", some "agent_a", some 5, none, none⟩

/-- The chronologically earlier of the two duplicate `final_answer`
events. -/
def cdupEarlier : Event := ⟨some "final_answer", some "agent_a", some 3, none, none⟩

/-- Two answers whose input order disagrees with their timestamps: the
chronologically earliest event is listed second. -/
def c10Events : List Event :=
  [⟨some "new_answer", some "agent_a", some 10, none, none⟩,
   ⟨some "new_answer", some "agent_b", some 5, none, none⟩]

/-- A single vote document under a fully-qualified turn path. -/
def c4Files : List (String × YVal) :=
  [("turn_1/attempt_1/agent_a/20250101_0000/vote.json",
    .vmap [("voted_for", .vstr "agent_b")])]

/-- A vote that names `agent_x`, carries no `voted_for_label`, in a
session with no answers. -/
def c9Vote : VoteRec :=
  ⟨"agent_a", .vstr "agent_a", some (.vstr "agent_x"), none, none, none, "",
   none, .varr [], .vmap [], none⟩

/-- Two vote files for one agent whose rounds arrive out of order. -/
def c8Files : List (String × YVal) :=
  [("agent_a/t1/vote.json", .vmap [("coordination_round", .vint 2)]),
   ("agent_a/t2/vote.json", .vmap [("coordination_round", .vint 1)])]

/-- The vote record of the first `c8Files` file (round 2). -/
def c8VoteA : VoteRec :=
  ⟨"agent_a", .vstr "agent_a", none, none, none, none, "t1",
   some (.vint 2), .varr [], .vmap [], none⟩

/-- The vote record of the second `c8Files` file (round 1). -/
def c8VoteB : VoteRec :=
  ⟨"agent_a", .vstr "agent_a", none, none, none, none, "t2",
   some (.vint 1), .varr [], .vmap [], none⟩

/-! ## Claim theorems -/

/-- Claim C1 (code bug): on the spec's YAML scenario the parser does NOT
attach the `model` keys to the sequence items.  The item frame is pushed
at `indent+2` but the pop loop discards frames with indent ≥ the line's
indent, so a key at exactly `indent+2` pops the item frame and its
assignment lands on the enclosing array as an invisible non-index
property.  The parser returns `{agents: [{id:"a"}, {id:"b"}]}`, and the
claimed `model` entries are absent, as the path probes show. -/
theorem C1_yaml_scenario_actual :
    parseYaml c1Yaml =
      .vmap [("agents", .varr [.vmap [("id", .vstr "a")], .vmap [("id", .vstr "b")]])] ∧
    getPath (parseYaml c1Yaml) [.fld "agents", .idx 0, .fld "model"] = none ∧
    getPath c1Claimed [.fld "agents", .idx 0, .fld "model"] = some (.vstr "m1") :=
  ⟨rfl, rfl, rfl⟩

/-- Claim C5 (confirmed): the two-answers-then-vote scenario produces
exactly the three claimed rows — labels `1.1` and `2.1` at relative
times 0 and 1, then a vote row at relative time 2 with voted-for label
`2.1` and available options `["1.1", "2.1"]`. -/
theorem C5_graph_scenario :
    (buildRows none c5Events).map
      (fun r => (r.label, r.relSeconds, r.votedForLabel, r.availableOptions)) =
    [("1.1", 0, none, []), ("2.1", 1, none, []),
     ("", 2, some "2.1", ["1.1", "2.1"])] := by decide

/-- Claim C7 (confirmed): classification is a pure function of the path,
and both the nested and the flattened form of
`turn_2/attempt_1/agent_b/20250101_0000/answer.txt` classify to
turn 2, attempt 1, agent `agent_b`, timestamp `20250101_0000`. -/
theorem C7_classify_deterministic_and_scenario :
    (∀ p q : String, p = q → classify p = classify q) ∧
    classify "turn_2/attempt_1/agent_b/20250101_0000/answer.txt" =
      ⟨some 2, some 1, some "agent_b", some "20250101_0000"⟩ ∧
    classify "turn_2__attempt_1__agent_b__20250101_0000__answer.txt" =
      ⟨some 2, some 1, some "agent_b", some "20250101_0000"⟩ :=
  ⟨fun _ _ h => by rw [h], by decide, by decide⟩

/-- Witness for the determinism conjunct of the C7 theorem at a concrete
path. -/
theorem C7_classify_deterministic_and_scenario_witness :
    classify "turn_2/attempt_1/agent_b/20250101_0000/answer.txt" =
      classify "turn_2/attempt_1/agent_b/20250101_0000/answer.txt" :=
  C7_classify_deterministic_and_scenario.1 _ _ rfl

/-- Claim C10 (confirmed): with no `session_metadata.start_time` the
start time is the first input event's timestamp — in input-list order,
not the minimum of the sorted events — and on a list whose
chronologically earliest event is not listed first this makes a row's
relative time negative (`c10Events` yields relative times -5 and 0). -/
theorem C10_start_time_fallback_negative_rel :
    (∀ (events : List Event) (e : Event),
      events.head? = some e → computeStartTime none events = tsOfEvent e) ∧
    computeStartTime none c10Events = 10 ∧
    (buildRows none c10Events).map (·.relSeconds) = [-5, 0] ∧
    ∃ r ∈ buildRows none c10Events, r.relSeconds < 0 := by
  refine ⟨fun events e h => ?_, by decide, by decide, ?_⟩
  · unfold computeStartTime
    simp [h]
  · refine ⟨(buildRows none c10Events).headD ⟨⟨none, none, none, none, none⟩,
      "", 0, 0, "", [], none, [], none⟩, by decide, by decide⟩

/-- Witness for the start-time-fallback conjunct of the C10 theorem. -/
theorem C10_start_time_fallback_negative_rel_witness :
    computeStartTime none c10Events =
      tsOfEvent ⟨some "new_answer", some "agent_a", some 10, none, none⟩ :=
  C10_start_time_fallback_negative_rel.1 c10Events _ rfl

/-- Counterexample to claim C2 as stated: for the path
`bob/20250101_1200/answer.txt` (which uses `/` as separator), the nested
classification recovers agent id `bob`, but after replacing `/` with
`__` the flattened heuristic finds no agent id at all — the agent id
differs, which the claim does not allow (only timestamp detection may
differ). -/
theorem C2_roundtrip_counterexample :
    (classify "bob/20250101_1200/answer.txt").agentId = some "bob" ∧
    (classify (flattenS "bob/20250101_1200/answer.txt")).agentId = none := by
  decide

/-- Counterexample to claim C3 as stated: with two `final_answer` events
for `agent_a` listed with the later timestamp first, the surviving row's
event is the FIRST IN INPUT ORDER (timestamp 5), not the first in
timestamp order (timestamp 3). -/
theorem C3_dedup_counterexample :
    (buildRows none [cdupLater, cdupEarlier]).map (·.event) = [cdupLater] ∧
    List.insertionSort evtLe (filterGraph [cdupLater, cdupEarlier]) =
      [cdupEarlier, cdupLater] ∧
    cdupLater ≠ cdupEarlier := by decide

/-- Counterexample to claim C4 as stated: a vote document with a
resolvable turn key `1_1` is recorded in the global votes map but in NO
turn bucket — the bucket's `votes` field stays empty, because
`extractSessionData` never writes votes into `perTurnData`. -/
theorem C4_votes_bucket_counterexample :
    turnKeyOf "turn_1/attempt_1/agent_a/20250101_0000/vote.json".data = some "1_1" ∧
    ((extractSessionDataM c4Files).votes.map fun kv => (kv.1, kv.2.length)) =
      [("agent_a", 1)] ∧
    ((extractSessionDataM c4Files).perTurnData.map fun kv =>
      (kv.1, kv.2.votes.length)) = [("1_1", 0)] := by decide

/-- Counterexample to claim C9 as stated: `agent_x` has no answers, yet
because it appears among the `status.agents` keys the fallback map
resolves the vote to the computed label `1.1`, not to the raw agent id. -/
theorem C9_fallback_counterexample :
    c9Vote.voted_for_label = none ∧
    c9Vote.voted_for = some (.vstr "agent_x") ∧
    answersCountByAgent [] "agent_x" = 0 ∧
    resolveVotedForLabel [] ["agent_x"] c9Vote = "1.1" ∧
    ("1.1" : String) ≠ "agent_x" :=
  ⟨rfl, rfl, by decide, by decide, by decide⟩

/-- Claim C6 (confirmed): the scalar coercer is total by construction and
equals, on every input string, the spec-ordered rule list
`scalarCoerceSpec` (empty or `null`/`~`, then booleans, then integer,
then float, then quote unwrapping, then the token itself). -/
theorem C6_scalar_coercer_eq_spec :
    ∀ s : String, parseYamlValue s = scalarCoerceSpec s := by
  intro s
  unfold parseYamlValue scalarCoerceSpec
  by_cases h1 : s = "" <;> by_cases h2 : s = "true" <;> by_cases h3 : s = "false" <;>
    by_cases h4 : s = "null" ∨ s = "~" <;> simp_all

/-! ## Association-list lemmas -/

/-- Reading back after a JS object write. -/
theorem jsObjGet_set {α : Type} :
    ∀ (es : List (String × α)) (k k' : String) (v : α),
      jsObjGet (jsObjSet es k v) k' = if k' = k then some v else jsObjGet es k'
  | [], k, k', v => by
    by_cases h : k' = k
    · subst h
      simp [jsObjSet, jsObjGet]
    · have h' : ¬ k = k' := fun hh => h hh.symm
      simp [jsObjSet, jsObjGet, h, h']
  | (k0, v0) :: tl, k, k', v => by
    by_cases h1 : k0 = k
    · by_cases h2 : k' = k
      · subst h2
        simp [jsObjSet, jsObjGet, h1]
      · have h2' : ¬ k = k' := fun hh => h2 hh.symm
        have h1' : ¬ k0 = k' := fun hh => h2 (hh.symm.trans h1)
        simp [jsObjSet, jsObjGet, h1, h2, h2', h1']
    · by_cases h2 : k0 = k'
      · have h3 : ¬ k' = k := fun hh => h1 (h2.trans hh)
        simp [jsObjSet, jsObjGet, h1, h2, h3]
      · simp [jsObjSet, jsObjGet, h1, h2, jsObjGet_set tl k k' v]

/-- Membership after a JS object write. -/
theorem mem_jsObjSet {α : Type} :
    ∀ {es : List (String × α)} {k : String} {v : α} {x : String × α},
      x ∈ jsObjSet es k v → x = (k, v) ∨ x ∈ es
  | [], k, v, x, h => by
    simp [jsObjSet] at h
    exact Or.inl h
  | hd :: tl, k, v, x, h => by
    by_cases h1 : hd.1 = k
    · rw [jsObjSet, if_pos h1] at h
      rcases List.mem_cons.mp h with h' | h'
      · exact Or.inl h'
      · exact Or.inr (List.mem_cons_of_mem _ h')
    · rw [jsObjSet, if_neg h1] at h
      rcases List.mem_cons.mp h with h' | h'
      · exact Or.inr (h' ▸ List.mem_cons_self hd tl)
      · rcases mem_jsObjSet h' with h'' | h''
        · exact Or.inl h''
        · exact Or.inr (List.mem_cons_of_mem _ h'')

/-- A written key is among the keys. -/
theorem key_mem_jsObjSet {α : Type} :
    ∀ (es : List (String × α)) (k : String) (v : α),
      k ∈ (jsObjSet es k v).map (·.1)
  | [], k, v => by simp [jsObjSet]
  | hd :: tl, k, v => by
    by_cases h1 : hd.1 = k
    · simp [jsObjSet, h1]
    · rw [jsObjSet, if_neg h1, List.map_cons]
      exact List.mem_cons_of_mem _ (key_mem_jsObjSet tl k v)

/-- Existing keys survive a JS object write. -/
theorem key_mem_jsObjSet_of_mem {α : Type} :
    ∀ {es : List (String × α)} {k' : String} (k : String) (v : α),
      k' ∈ es.map (·.1) → k' ∈ (jsObjSet es k v).map (·.1)
  | [], k', k, v, h => by simp at h
  | hd :: tl, k', k, v, h => by
    rcases List.mem_cons.mp h with h' | h'
    · by_cases h1 : hd.1 = k
      · rw [jsObjSet, if_pos h1, List.map_cons]
        exact List.mem_cons.mpr (Or.inl (h' ▸ h1))
      · rw [jsObjSet, if_neg h1, List.map_cons]
        exact List.mem_cons.mpr (Or.inl h')
    · by_cases h1 : hd.1 = k
      · rw [jsObjSet, if_pos h1, List.map_cons]
        exact List.mem_cons_of_mem _ h'
      · rw [jsObjSet, if_neg h1, List.map_cons]
        exact List.mem_cons_of_mem _ (key_mem_jsObjSet_of_mem k v h')

/-- Reading a value-mapped association list. -/
theorem jsObjGet_map_val {α β : Type} (g : α → β) :
    ∀ (es : List (String × α)) (k : String),
      jsObjGet (es.map fun kv => (kv.1, g kv.2)) k = (jsObjGet es k).map g
  | [], k => rfl
  | hd :: tl, k => by
    by_cases h1 : hd.1 = k <;> simp [jsObjGet, h1, jsObjGet_map_val g tl k]

/-! ## Fold-invariant helpers -/

/-- A property preserved by every step holds of the fold result. -/
theorem foldl_inv {σ α : Type} {P : σ → Prop} (step : σ → α → σ) :
    ∀ (l : List α) (s : σ), P s → (∀ s' a, a ∈ l → P s' → P (step s' a)) →
      P (l.foldl step s) := by
  intro l
  induction l with
  | nil => exact fun s h0 _ => h0
  | cons a l ih =>
    intro s h0 hstep
    rw [List.foldl_cons]
    exact ih (step s a) (hstep s a (List.mem_cons_self a l) h0)
      (fun s' a' ha' => hstep s' a' (List.mem_cons_of_mem a ha'))

/-- A property established when member `x` is processed and preserved by
later steps holds of the fold result; an auxiliary invariant `I`,
preserved by all steps, is available when `x` is reached. -/
theorem foldl_mem_inv {σ α : Type} {I Q : σ → Prop} (step : σ → α → σ) {x : α} :
    ∀ (l : List α) (s : σ), x ∈ l → I s →
      (∀ s' a, a ∈ l → I s' → I (step s' a)) →
      (∀ s', I s' → Q (step s' x)) →
      (∀ s' a, a ∈ l → Q s' → Q (step s' a)) →
      Q (l.foldl step s) := by
  intro l
  induction l with
  | nil => intro s hx; exact absurd hx (List.not_mem_nil x)
  | cons a l ih =>
    intro s hx hI hIstep hQx hQstep
    rw [List.foldl_cons]
    rcases List.mem_cons.mp hx with h | h
    · subst h
      exact foldl_inv step l (step s x) (hQx s hI)
        (fun s' a' ha' => hQstep s' a' (List.mem_cons_of_mem x ha'))
    · exact ih (step s a) h (hIstep s a (List.mem_cons_self a l) hI)
        (fun s' a' ha' => hIstep s' a' (List.mem_cons_of_mem a ha'))
        hQx
        (fun s' a' ha' => hQstep s' a' (List.mem_cons_of_mem a ha'))

/-! ## Lemmas about the `final_answer` dedup (claim C3) -/

/-- Unfolding of the `final_answer`-with-key test. -/
theorem isFinalKey_iff {a : String} {e : Event} :
    isFinalKey a e = true ↔
      e.event_type = some "final_answer" ∧ keyOfEvent e = a := by
  simp [isFinalKey]

/-- The test fails on a different key. -/
theorem isFinalKey_false_of_key_ne {a : String} {e : Event}
    (h : keyOfEvent e ≠ a) : isFinalKey a e = false := by
  unfold isFinalKey
  rw [beq_eq_false_iff_ne.mpr h, Bool.and_false]

/-- The test fails on a non-`final_answer` event. -/
theorem isFinalKey_false_of_type {a : String} {e : Event}
    (h : ¬ e.event_type = some "final_answer") : isFinalKey a e = false := by
  unfold isFinalKey
  rw [beq_eq_false_iff_ne.mpr h, Bool.false_and]

/-- A key already seen contributes no further `final_answer` events. -/
theorem dedupFinal_countP_seen (a : String) :
    ∀ (l : List Event) (seen : List String), a ∈ seen →
      (dedupFinal l seen).countP (isFinalKey a) = 0
  | [], _, _ => rfl
  | e :: es, seen, ha => by
    by_cases hf : e.event_type = some "final_answer"
    · by_cases hs : keyOfEvent e ∈ seen
      · rw [dedupFinal, if_pos hf]
        simp only [if_pos hs]
        exact dedupFinal_countP_seen a es seen ha
      · have hne : keyOfEvent e ≠ a := fun h => hs (h ▸ ha)
        rw [dedupFinal, if_pos hf]
        simp only [if_neg hs]
        rw [List.countP_cons, isFinalKey_false_of_key_ne hne,
          dedupFinal_countP_seen a es (keyOfEvent e :: seen)
            (List.mem_cons_of_mem _ ha)]
        simp
    · rw [dedupFinal, if_neg hf, List.countP_cons, isFinalKey_false_of_type hf,
        dedupFinal_countP_seen a es seen ha]
      simp

/-- At most one `final_answer` event per key survives the dedup. -/
theorem dedupFinal_countP_le_one (a : String) :
    ∀ (l : List Event) (seen : List String),
      (dedupFinal l seen).countP (isFinalKey a) ≤ 1
  | [], _ => by simp [dedupFinal]
  | e :: es, seen => by
    by_cases hf : e.event_type = some "final_answer"
    · by_cases hs : keyOfEvent e ∈ seen
      · rw [dedupFinal, if_pos hf]
        simp only [if_pos hs]
        exact dedupFinal_countP_le_one a es seen
      · rw [dedupFinal, if_pos hf]
        simp only [if_neg hs]
        rw [List.countP_cons]
        by_cases hka : keyOfEvent e = a
        · have h0 := dedupFinal_countP_seen a es (keyOfEvent e :: seen)
            (hka ▸ List.mem_cons_self _ _)
          rw [h0]
          split <;> omega
        · rw [isFinalKey_false_of_key_ne hka]
          have := dedupFinal_countP_le_one a es (keyOfEvent e :: seen)
          simp
          omega
    · rw [dedupFinal, if_neg hf, List.countP_cons, isFinalKey_false_of_type hf]
      have := dedupFinal_countP_le_one a es seen
      simp
      omega

/-- A surviving `final_answer` event is the first event of its key in
the pre-dedup list. -/
theorem dedupFinal_find (a : String) :
    ∀ (l : List Event) (seen : List String) (e : Event),
      e ∈ dedupFinal l seen → isFinalKey a e = true →
      a ∉ seen ∧ List.find? (isFinalKey a) l = some e
  | [], _, _, h, _ => absurd h (List.not_mem_nil _)
  | x :: xs, seen, e, h, hfin => by
    have hkey := isFinalKey_iff.mp hfin
    by_cases hf : x.event_type = some "final_answer"
    · by_cases hs : keyOfEvent x ∈ seen
      · rw [dedupFinal, if_pos hf] at h
        simp only [if_pos hs] at h
        obtain ⟨hnot, hfind⟩ := dedupFinal_find a xs seen e h hfin
        have hxa : isFinalKey a x = false :=
          isFinalKey_false_of_key_ne fun hx => hnot (hx ▸ hs)
        refine ⟨hnot, ?_⟩
        rw [List.find?_cons, hxa]
        exact hfind
      · rw [dedupFinal, if_pos hf] at h
        simp only [if_neg hs] at h
        rcases List.mem_cons.mp h with h' | h'
        · subst h'
          refine ⟨hkey.2 ▸ hs, ?_⟩
          rw [List.find?_cons, hfin]
        · obtain ⟨hnot, hfind⟩ :=
            dedupFinal_find a xs (keyOfEvent x :: seen) e h' hfin
          have hne : keyOfEvent x ≠ a := fun hx =>
            hnot (List.mem_cons.mpr (Or.inl hx.symm))
          refine ⟨fun hmem => hnot (List.mem_cons_of_mem _ hmem), ?_⟩
          rw [List.find?_cons, isFinalKey_false_of_key_ne hne]
          exact hfind
    · rw [dedupFinal, if_neg hf] at h
      rcases List.mem_cons.mp h with h' | h'
      · exact absurd (h' ▸ hkey.1) hf
      · obtain ⟨hnot, hfind⟩ := dedupFinal_find a xs seen e h' hfin
        refine ⟨hnot, ?_⟩
        rw [List.find?_cons, isFinalKey_false_of_type hf]
        exact hfind

/-- The row built for an event carries that event. -/
theorem mkRow_event (agents : List String) (reg : List (String × RegEntry))
    (startTime : Int) (i : Nat) (e : Event) :
    (mkRow agents reg startTime i e).event = e := by
  unfold mkRow
  split_ifs <;> rfl

/-- The emitted rows carry exactly the indexed events, in order. -/
theorem withIdx_map_event (agents : List String) (reg : List (String × RegEntry))
    (startTime : Int) :
    ∀ (l : List Event) (i : Nat),
      ((withIdx i l).map fun ie => mkRow agents reg startTime ie.1 ie.2).map
        (·.event) = l
  | [], _ => rfl
  | e :: es, i => by
    simp only [withIdx, List.map_cons, mkRow_event]
    rw [withIdx_map_event agents reg startTime es (i + 1)]

/-- The events of the output rows are the sorted, deduped events. -/
theorem buildRows_events (mdStart : Option Int) (events : List Event) :
    (buildRows mdStart events).map (·.event) =
      if (dedupFinal (filterGraph events) []).isEmpty then []
      else List.insertionSort evtLe (dedupFinal (filterGraph events) []) := by
  unfold buildRows
  by_cases h : (dedupFinal (filterGraph events) []).isEmpty
  · simp [h]
  · simp only [h, Bool.false_eq_true, if_false]
    exact withIdx_map_event _ _ _ _ 0

/-- Claim C3, amended (corrected): at most one `final_answer` row per
agent key survives into the output rows, and a surviving `final_answer`
row's event is the FIRST `final_answer` of its key in the filtered
input-list order — the dedup runs before the timestamp sort, so input
order, not timestamp order, decides the survivor. -/
theorem C3_final_dedup_amended (mdStart : Option Int) (events : List Event)
    (a : String) :
    (buildRows mdStart events).countP (fun r => isFinalKey a r.event) ≤ 1 ∧
    ∀ r ∈ buildRows mdStart events, isFinalKey a r.event = true →
      List.find? (isFinalKey a) (filterGraph events) = some r.event := by
  have hmap := buildRows_events mdStart events
  constructor
  · have hcnt : (buildRows mdStart events).countP (fun r => isFinalKey a r.event) =
        ((buildRows mdStart events).map (·.event)).countP (isFinalKey a) := by
      rw [List.countP_map]
      rfl
    rw [hcnt, hmap]
    by_cases h : (dedupFinal (filterGraph events) []).isEmpty
    · simp [h]
    · simp only [h, Bool.false_eq_true, if_false]
      rw [(List.perm_insertionSort evtLe _).countP_eq]
      exact dedupFinal_countP_le_one a _ []
  · intro r hr hfin
    have hev : r.event ∈ (buildRows mdStart events).map (·.event) :=
      List.mem_map_of_mem _ hr
    rw [hmap] at hev
    by_cases h : (dedupFinal (filterGraph events) []).isEmpty
    · rw [if_pos h] at hev
      exact absurd hev (List.not_mem_nil _)
    · rw [if_neg h, List.mem_insertionSort] at hev
      exact (dedupFinal_find a _ [] r.event hev hfin).2

/-- Witness for the amended C3 theorem on the duplicate-finals input:
the count bound, and that the survivor is the first `final_answer` in
input order. -/
theorem C3_final_dedup_amended_witness :
    (buildRows none [cdupLater, cdupEarlier]).countP
      (fun r => isFinalKey "agent_a" r.event) ≤ 1 ∧
    List.find? (isFinalKey "agent_a") (filterGraph [cdupLater, cdupEarlier]) =
      some cdupLater :=
  ⟨(C3_final_dedup_amended none [cdupLater, cdupEarlier] "agent_a").1,
   (C3_final_dedup_amended none [cdupLater, cdupEarlier] "agent_a").2
     ⟨cdupLater, "agent_a", 0, 0, "final", [], none, [], some "final_answer"⟩
     (by decide) (by decide)⟩

/-! ## Lemmas about vote accumulation and sorting (claims C4 and C8) -/

/-- A non-vote file contributes no encounter record. -/
theorem encounterVotes_cons_none {pc : String × YVal} {fs : List (String × YVal)}
    {a : String} (h : voteRecOf pc.1.data pc.2 = none) :
    encounterVotes (pc :: fs) a = encounterVotes fs a := by
  simp [encounterVotes, List.filterMap_cons, h]

/-- A vote file of agent `a` contributes its record in front. -/
theorem encounterVotes_cons_hit {pc : String × YVal} {fs : List (String × YVal)}
    {a : String} {vr : VoteRec} (h : voteRecOf pc.1.data pc.2 = some (a, vr)) :
    encounterVotes (pc :: fs) a = vr :: encounterVotes fs a := by
  simp [encounterVotes, List.filterMap_cons, h]

/-- A vote file of a different agent contributes nothing for `a`. -/
theorem encounterVotes_cons_miss {pc : String × YVal} {fs : List (String × YVal)}
    {a aid : String} {vr : VoteRec} (h : voteRecOf pc.1.data pc.2 = some (aid, vr))
    (hne : aid ≠ a) : encounterVotes (pc :: fs) a = encounterVotes fs a := by
  simp only [encounterVotes, List.filterMap_cons, h]
  rw [if_neg hne]

/-- One step of the votes pass on a vote file of agent `aid` with
history `l`. -/
theorem votesStep_eq_some {acc : List (String × List VoteRec)}
    {pc : String × YVal} {aid : String} {vr : VoteRec} {l : List VoteRec}
    (hv : voteRecOf pc.1.data pc.2 = some (aid, vr))
    (h : jsObjGet acc aid = some l) :
    votesStep acc pc = jsObjSet acc aid (l ++ [vr]) := by
  unfold votesStep
  rw [hv]
  dsimp only
  rw [h]

/-- One step of the votes pass on a first vote of agent `aid`. -/
theorem votesStep_eq_none {acc : List (String × List VoteRec)}
    {pc : String × YVal} {aid : String} {vr : VoteRec}
    (hv : voteRecOf pc.1.data pc.2 = some (aid, vr))
    (h : jsObjGet acc aid = none) :
    votesStep acc pc = jsObjSet acc aid [vr] := by
  unfold votesStep
  rw [hv]
  dsimp only
  rw [h]

/-- One step of the votes pass on a non-vote file. -/
theorem votesStep_eq_skip {acc : List (String × List VoteRec)}
    {pc : String × YVal} (hv : voteRecOf pc.1.data pc.2 = none) :
    votesStep acc pc = acc := by
  unfold votesStep
  rw [hv]

/-- The votes pass appends, in encounter order, to an existing history. -/
theorem votesStep_foldl_some (a : String) :
    ∀ (fs : List (String × YVal)) (acc : List (String × List VoteRec))
      (l : List VoteRec), jsObjGet acc a = some l →
      jsObjGet (fs.foldl votesStep acc) a = some (l ++ encounterVotes fs a)
  | [], acc, l, h => by simpa [encounterVotes] using h
  | pc :: fs, acc, l, h => by
    rw [List.foldl_cons]
    rcases hv : voteRecOf pc.1.data pc.2 with _ | ⟨aid, vr⟩
    · rw [votesStep_eq_skip hv, encounterVotes_cons_none hv]
      exact votesStep_foldl_some a fs acc l h
    · by_cases ha : aid = a
      · subst ha
        rw [votesStep_eq_some hv h, encounterVotes_cons_hit hv]
        have hset : jsObjGet (jsObjSet acc aid (l ++ [vr])) aid =
            some (l ++ [vr]) := by
          rw [jsObjGet_set]
          simp
        rw [votesStep_foldl_some aid fs _ (l ++ [vr]) hset]
        simp
      · rw [encounterVotes_cons_miss hv ha]
        have hget : ∀ x, jsObjGet (jsObjSet acc aid x) a = some l := by
          intro x
          rw [jsObjGet_set, if_neg (fun hh => ha hh.symm)]
          exact h
        rcases hacc : jsObjGet acc aid with _ | l0
        · rw [votesStep_eq_none hv hacc]
          exact votesStep_foldl_some a fs _ l (hget _)
        · rw [votesStep_eq_some hv hacc]
          exact votesStep_foldl_some a fs _ l (hget _)

/-- Starting from no history, the votes pass accumulates exactly the
encounter-order records (no entry at all when there are none). -/
theorem votesStep_foldl_none (a : String) :
    ∀ (fs : List (String × YVal)) (acc : List (String × List VoteRec)),
      jsObjGet acc a = none →
      jsObjGet (fs.foldl votesStep acc) a =
        match encounterVotes fs a with
        | [] => none
        | x :: xs => some (x :: xs)
  | [], acc, h => by simpa [encounterVotes] using h
  | pc :: fs, acc, h => by
    rw [List.foldl_cons]
    rcases hv : voteRecOf pc.1.data pc.2 with _ | ⟨aid, vr⟩
    · rw [votesStep_eq_skip hv, encounterVotes_cons_none hv]
      exact votesStep_foldl_none a fs acc h
    · by_cases ha : aid = a
      · subst ha
        rw [votesStep_eq_none hv h, encounterVotes_cons_hit hv]
        have hset : jsObjGet (jsObjSet acc aid [vr]) aid = some [vr] := by
          rw [jsObjGet_set]
          simp
        rw [votesStep_foldl_some aid fs _ [vr] hset]
        simp
      · rw [encounterVotes_cons_miss hv ha]
        have hget : jsObjGet (jsObjSet acc aid (match jsObjGet acc aid with
            | some l0 => l0 ++ [vr]
            | none => [vr])) a = none := by
          rw [jsObjGet_set, if_neg (fun hh => ha hh.symm)]
          exact h
        rcases hacc : jsObjGet acc aid with _ | l0
        · rw [votesStep_eq_none hv hacc]
          refine votesStep_foldl_none a fs _ ?_
          rw [jsObjGet_set, if_neg (fun hh => ha hh.symm)]
          exact h
        · rw [votesStep_eq_some hv hacc]
          refine votesStep_foldl_none a fs _ ?_
          rw [jsObjGet_set, if_neg (fun hh => ha hh.symm)]
          exact h

/-- Stability of the vote sort: votes of any fixed round value keep
their encounter order. -/
theorem sortVotes_filter_round (l : List VoteRec) (v : Int) :
    (sortVotes l).filter (fun r => roundKey r == v) =
      l.filter (fun r => roundKey r == v) := by
  have hpair : (l.filter (fun r => roundKey r == v)).Pairwise voteLe := by
    apply List.pairwise_of_forall_mem_list
    intro a ha b hb
    have hav : roundKey a = v := by simpa using (List.mem_filter.mp ha).2
    have hbv : roundKey b = v := by simpa using (List.mem_filter.mp hb).2
    unfold voteLe
    rw [hav, hbv]
  have hsub : (l.filter (fun r => roundKey r == v)).Sublist (sortVotes l) :=
    List.sublist_insertionSort hpair (List.filter_sublist l)
  have hself : List.filter (fun r => roundKey r == v)
      (l.filter (fun r => roundKey r == v)) =
      l.filter (fun r => roundKey r == v) := by
    rw [List.filter_filter]
    exact List.filter_congr fun x _ => Bool.and_self _
  have hsub2 : (l.filter (fun r => roundKey r == v)).Sublist
      ((sortVotes l).filter (fun r => roundKey r == v)) := by
    have := List.Sublist.filter (fun r => roundKey r == v) hsub
    rwa [hself] at this
  have hperm : ((sortVotes l).filter (fun r => roundKey r == v)).Perm
      (l.filter (fun r => roundKey r == v)) :=
    (List.perm_insertionSort voteLe l).filter _
  exact (hsub2.eq_of_length hperm.length_eq.symm).symm

/-- Claim C8 (confirmed): every vote document for an agent is retained
(the output history is a permutation of the encounter-order records), the
history is sorted by ascending round key (`coordination_round || 0`), and
votes of equal round key keep their encounter order (stable sort). -/
theorem C8_votes_retained_sorted_stable (files : List (String × YVal))
    (a : String) (l : List VoteRec)
    (hl : jsObjGet (extractSessionDataM files).votes a = some l) :
    l.Perm (encounterVotes files a) ∧
    l.Sorted voteLe ∧
    ∀ v : Int, l.filter (fun r => roundKey r == v) =
      (encounterVotes files a).filter (fun r => roundKey r == v) := by
  have hpre := votesStep_foldl_none a files [] rfl
  have hvotes : (extractSessionDataM files).votes =
      (files.foldl votesStep []).map fun kv => (kv.1, sortVotes kv.2) := rfl
  rw [hvotes, jsObjGet_map_val, hpre] at hl
  rcases henc : encounterVotes files a with _ | ⟨x, xs⟩
  · rw [henc] at hl
    exact absurd hl (by simp)
  · rw [henc] at hl
    have hl' : l = sortVotes (x :: xs) := by simpa using hl.symm
    subst hl'
    exact ⟨List.perm_insertionSort voteLe _,
      List.sorted_insertionSort voteLe _,
      fun v => sortVotes_filter_round _ v⟩

/-- Witness for the C8 theorem on the out-of-order two-vote input: the
retained history is the sorted permutation of the two encounter records. -/
theorem C8_votes_retained_sorted_stable_witness :
    ([c8VoteB, c8VoteA] : List VoteRec).Perm (encounterVotes c8Files "agent_a") :=
  (C8_votes_retained_sorted_stable c8Files "agent_a" [c8VoteB, c8VoteA] rfl).1

/-! ## Lemmas about the vote-label fallback (claim C9) -/

/-- A string absent from a list has no index in it. -/
theorem idxOf_eq_none_of_not_mem :
    ∀ {l : List String} {a : String}, a ∉ l → idxOf? a l = none
  | [], _, _ => rfl
  | s :: r, a, h => by
    have hne : s ≠ a := fun hh => h (hh ▸ List.mem_cons_self s r)
    rw [idxOf?, if_neg hne,
      idxOf_eq_none_of_not_mem (fun hh => h (List.mem_cons_of_mem s hh))]
    rfl

/-- De-duplication preserves membership. -/
theorem mem_dedupFirst : ∀ {l : List String} {a : String},
    a ∈ dedupFirst l → a ∈ l
  | s :: r, a, h => by
    rcases List.mem_cons.mp h with h' | h'
    · exact h' ▸ List.mem_cons_self s r
    · exact List.mem_cons_of_mem s (mem_dedupFirst (List.mem_of_mem_filter h'))

/-- Claim C9, amended (corrected): a vote lacking `voted_for_label`
naming an agent `x` that has no intermediate answers AND does not appear
among the `status.agents` keys resolves to the raw agent id `x` — not an
empty value and not an exception.  (When `x` does appear in the status
agents, the fallback map yields a computed tab label instead; see the
counterexample.) -/
theorem C9_fallback_amended (answers : List (String × AnswerRec))
    (statusAgents : List String) (vote : VoteRec) (x : String)
    (hvf : vote.voted_for = some (.vstr x)) (hx : x ≠ "")
    (hlab : vote.voted_for_label = none)
    (hans : x ∉ answerAgents answers) (hstat : x ∉ statusAgents) :
    resolveVotedForLabel answers statusAgents vote = x := by
  have hmem : x ∉ agentIdsOf answers statusAgents := by
    intro h
    rw [agentIdsOf, List.mem_insertionSort] at h
    rcases List.mem_append.mp (mem_dedupFirst h) with h' | h'
    · exact hans h'
    · exact hstat h'
  have htr : jsTruthy (.vstr x) = true := by
    unfold jsTruthy
    exact decide_eq_true hx
  unfold resolveVotedForLabel
  rw [hvf, hlab]
  simp only [htr, if_true, yvalKeyStr]
  unfold labelFallback
  rw [idxOf_eq_none_of_not_mem hmem]

/-- Witness for the amended C9 theorem: with no answers and no status
agents, the vote on `agent_x` resolves to the raw id `agent_x`. -/
theorem C9_fallback_amended_witness :
    resolveVotedForLabel [] [] c9Vote = "agent_x" :=
  C9_fallback_amended [] [] c9Vote "agent_x" rfl (by decide) rfl
    (by intro h; exact absurd (mem_dedupFirst h) (List.not_mem_nil _))
    (List.not_mem_nil _)

/-! ## Lemmas about the first aggregation pass (claim C4) -/

/-- Reading a bucket after a bucket update. -/
theorem get_updBucket (pt : List (String × TurnBucket)) (k0 : String)
    (f : TurnBucket → TurnBucket) (k : String) :
    jsObjGet (updBucket pt k0 f) k =
      if k = k0 then (jsObjGet pt k0).map f else jsObjGet pt k := by
  unfold updBucket
  rcases h : jsObjGet pt k0 with _ | b
  · by_cases hk : k = k0
    · subst hk
      rw [if_pos rfl, h]
      rfl
    · rw [if_neg hk]
  · rw [jsObjGet_set]
    by_cases hk : k = k0
    · subst hk
      rw [if_pos rfl, if_pos rfl]
      rfl
    · rw [if_neg hk, if_neg hk]

/-- `FileTouch` is reflexive: an untouched bucket qualifies. -/
theorem FileTouch_refl (pc : String × YVal) (k : String) (b : TurnBucket) :
    FileTouch pc k b b :=
  ⟨rfl, rfl, Or.inl rfl, Or.inl rfl, Or.inl rfl, Or.inl rfl⟩

/-- `FileTouch` composes along successive stages of the same file. -/
theorem FileTouch_comp {pc : String × YVal} {k : String} {b0 b1 b2 : TurnBucket}
    (h1 : FileTouch pc k b0 b1) (h2 : FileTouch pc k b1 b2) :
    FileTouch pc k b0 b2 := by
  obtain ⟨v1, a1, m1, s1, c1, n1⟩ := h1
  obtain ⟨v2, a2, m2, s2, c2, n2⟩ := h2
  refine ⟨v2.trans v1, a2.trans a1, ?_, ?_, ?_, ?_⟩
  · rcases m2 with m2 | m2
    · rcases m1 with m1 | m1
      · exact Or.inl (m2.trans m1)
      · exact Or.inr ⟨m1.1, m1.2.1, m2.trans m1.2.2⟩
    · exact Or.inr m2
  · rcases s2 with s2 | s2
    · rcases s1 with s1 | s1
      · exact Or.inl (s2.trans s1)
      · exact Or.inr ⟨s1.1, s1.2.1, s2.trans s1.2.2⟩
    · exact Or.inr s2
  · rcases c2 with c2 | c2
    · rcases c1 with c1 | c1
      · exact Or.inl (c2.trans c1)
      · exact Or.inr ⟨c1.1, c1.2.1, c2.trans c1.2.2⟩
    · exact Or.inr c2
  · rcases n2 with n2 | n2
    · rcases n1 with n1 | n1
      · exact Or.inl (n2.trans n1)
      · exact Or.inr ⟨n1.1, n1.2.1, n2.trans n1.2.2⟩
    · exact Or.inr n2

/-- Bucket evolution across one routing stage. -/
theorem kindRoute_pt {suffix : String} {setG : YVal → Pass1State → Pass1State}
    {setB : YVal → TurnBucket → TurnBucket} {dk : Option String} {p : List Char}
    {c : YVal} {st : Pass1State} {k : String} {b : TurnBucket}
    (h : jsObjGet (kindRoute suffix setG setB dk p c st).perTurnData k = some b) :
    jsObjGet st.perTurnData k = some b ∨
    (isKindFile suffix p c = true ∧ dk = some k ∧
      ∃ b0, jsObjGet st.perTurnData k = some b0 ∧ b = setB c b0) := by
  unfold kindRoute at h
  split_ifs at h with hhit
  · rcases dk with _ | s
    · exact Or.inl h
    · dsimp only at h
      by_cases hk : k = s
      · subst hk
        rw [get_updBucket, if_pos rfl] at h
        obtain ⟨b0, hb0, hfb⟩ := Option.map_eq_some'.mp h
        exact Or.inr ⟨hhit, rfl, b0, hb0, hfb.symm⟩
      · rw [get_updBucket, if_neg hk] at h
        exact Or.inl h
  · exact Or.inl h

/-- Bucket existence survives one routing stage. -/
theorem kindRoute_pt_pres {suffix : String} {setG : YVal → Pass1State → Pass1State}
    {setB : YVal → TurnBucket → TurnBucket} {dk : Option String} {p : List Char}
    {c : YVal} {st : Pass1State} {k : String}
    (h : ∃ b, jsObjGet st.perTurnData k = some b) :
    ∃ b, jsObjGet (kindRoute suffix setG setB dk p c st).perTurnData k = some b := by
  obtain ⟨b, hb⟩ := h
  unfold kindRoute
  split_ifs with hhit
  · rcases dk with _ | s
    · exact ⟨b, hb⟩
    · dsimp only
      by_cases hk : k = s
      · subst hk
        rw [get_updBucket, if_pos rfl, hb]
        exact ⟨setB c b, rfl⟩
      · rw [get_updBucket, if_neg hk]
        exact ⟨b, hb⟩
  · exact ⟨b, hb⟩

/-- Bucket evolution across the initialisation step. -/
theorem bucketInit_pt {ta : Option (Nat × Nat)} {dk : Option String}
    {st : Pass1State} {k : String} {b : TurnBucket}
    (h : jsObjGet (bucketInit ta dk st).perTurnData k = some b) :
    jsObjGet st.perTurnData k = some b ∨
    (dk = some k ∧ ∃ tn, ta = some tn ∧ b = freshBucket tn) := by
  unfold bucketInit at h
  rcases dk with _ | s
  · exact Or.inl h
  · rcases ta with _ | tn
    · exact Or.inl h
    · dsimp only at h
      rcases hget : jsObjGet st.perTurnData s with _ | b0
      · rw [hget] at h
        dsimp only at h
        rw [jsObjGet_set] at h
        split_ifs at h with hk
        · exact Or.inr ⟨hk ▸ rfl, tn, rfl, (Option.some.injEq _ _ ▸ h).symm⟩
        · exact Or.inl h
      · rw [hget] at h
        exact Or.inl h

/-- Bucket existence survives the initialisation step. -/
theorem bucketInit_pt_pres {ta : Option (Nat × Nat)} {dk : Option String}
    {st : Pass1State} {k : String}
    (h : ∃ b, jsObjGet st.perTurnData k = some b) :
    ∃ b, jsObjGet (bucketInit ta dk st).perTurnData k = some b := by
  obtain ⟨b, hb⟩ := h
  unfold bucketInit
  rcases dk with _ | s
  · exact ⟨b, hb⟩
  · rcases ta with _ | tn
    · exact ⟨b, hb⟩
    · dsimp only
      rcases hget : jsObjGet st.perTurnData s with _ | b0
      · dsimp only
        rw [jsObjGet_set]
        split_ifs with hk
        · exact ⟨freshBucket tn, rfl⟩
        · exact ⟨b, hb⟩
      · exact ⟨b, hb⟩

/-- The initialisation step creates this file's bucket. -/
theorem bucketInit_pt_est {tn : Nat × Nat} {k : String} {st : Pass1State} :
    ∃ b, jsObjGet (bucketInit (some tn) (some k) st).perTurnData k = some b := by
  unfold bucketInit
  dsimp only
  rcases hget : jsObjGet st.perTurnData k with _ | b0
  · dsimp only
    rw [jsObjGet_set, if_pos rfl]
    exact ⟨freshBucket tn, rfl⟩
  · exact ⟨b0, hget⟩

/-- Bucket evolution across one whole first-pass step: the bucket at `k`
either evolves from the previous bucket, or is this file's freshly
created bucket, and in both cases only `FileTouch` changes happen. -/
theorem pass1Step_evolve {st : Pass1State} {pc : String × YVal} {k : String}
    {b : TurnBucket}
    (h : jsObjGet (pass1Step st pc).perTurnData k = some b) :
    (∃ b0, jsObjGet st.perTurnData k = some b0 ∧ FileTouch pc k b0 b) ∨
    (turnKeyOf pc.1.data = some k ∧ ∃ tn,
      extractTurnAttempt pc.1.data = some tn ∧ FileTouch pc k (freshBucket tn) b) := by
  simp only [pass1Step] at h
  have p5 : ∃ b4, jsObjGet (kindRoute "coordination_events.json"
      (fun v s => ⟨s.metrics, s.status, v, s.snapshotMappings, s.perTurnData⟩)
      (fun v b => { b with coordination := v }) (turnKeyOf pc.1.data) pc.1.data pc.2
      (kindRoute "status.json"
        (fun v s => ⟨s.metrics, v, s.coordination, s.snapshotMappings, s.perTurnData⟩)
        (fun v b => { b with status := v }) (turnKeyOf pc.1.data) pc.1.data pc.2
        (kindRoute "metrics_summary.json"
          (fun v s => ⟨v, s.status, s.coordination, s.snapshotMappings, s.perTurnData⟩)
          (fun v b => { b with metrics := v }) (turnKeyOf pc.1.data) pc.1.data pc.2
          (bucketInit (extractTurnAttempt pc.1.data) (turnKeyOf pc.1.data)
            st)))).perTurnData k = some b4 ∧ FileTouch pc k b4 b := by
    rcases kindRoute_pt h with h' | ⟨hhit, hdk, b0, hb0, rfl⟩
    · exact ⟨b, h', FileTouch_refl pc k b⟩
    · exact ⟨b0, hb0, rfl, rfl, Or.inl rfl, Or.inl rfl, Or.inl rfl,
        Or.inr ⟨hhit, hdk, rfl⟩⟩
  obtain ⟨b4, h4, ft5⟩ := p5
  have p4 : ∃ b3, jsObjGet (kindRoute "status.json"
      (fun v s => ⟨s.metrics, v, s.coordination, s.snapshotMappings, s.perTurnData⟩)
      (fun v b => { b with status := v }) (turnKeyOf pc.1.data) pc.1.data pc.2
      (kindRoute "metrics_summary.json"
        (fun v s => ⟨v, s.status, s.coordination, s.snapshotMappings, s.perTurnData⟩)
        (fun v b => { b with metrics := v }) (turnKeyOf pc.1.data) pc.1.data pc.2
        (bucketInit (extractTurnAttempt pc.1.data) (turnKeyOf pc.1.data)
          st))).perTurnData k = some b3 ∧ FileTouch pc k b3 b4 := by
    rcases kindRoute_pt h4 with h' | ⟨hhit, hdk, b0, hb0, rfl⟩
    · exact ⟨b4, h', FileTouch_refl pc k b4⟩
    · exact ⟨b0, hb0, rfl, rfl, Or.inl rfl, Or.inl rfl,
        Or.inr ⟨hhit, hdk, rfl⟩, Or.inl rfl⟩
  obtain ⟨b3, h3, ft4⟩ := p4
  have p3 : ∃ b2, jsObjGet (kindRoute "metrics_summary.json"
      (fun v s => ⟨v, s.status, s.coordination, s.snapshotMappings, s.perTurnData⟩)
      (fun v b => { b with metrics := v }) (turnKeyOf pc.1.data) pc.1.data pc.2
      (bucketInit (extractTurnAttempt pc.1.data) (turnKeyOf pc.1.data)
        st)).perTurnData k = some b2 ∧ FileTouch pc k b2 b3 := by
    rcases kindRoute_pt h3 with h' | ⟨hhit, hdk, b0, hb0, rfl⟩
    · exact ⟨b3, h', FileTouch_refl pc k b3⟩
    · exact ⟨b0, hb0, rfl, rfl, Or.inl rfl,
        Or.inr ⟨hhit, hdk, rfl⟩, Or.inl rfl, Or.inl rfl⟩
  obtain ⟨b2, h2, ft3⟩ := p3
  have p2 : ∃ b1, jsObjGet (bucketInit (extractTurnAttempt pc.1.data)
      (turnKeyOf pc.1.data) st).perTurnData k = some b1 ∧ FileTouch pc k b1 b2 := by
    rcases kindRoute_pt h2 with h' | ⟨hhit, hdk, b0, hb0, rfl⟩
    · exact ⟨b2, h', FileTouch_refl pc k b2⟩
    · exact ⟨b0, hb0, rfl, rfl,
        Or.inr ⟨hhit, hdk, rfl⟩, Or.inl rfl, Or.inl rfl, Or.inl rfl⟩
  obtain ⟨b1, h1, ft2⟩ := p2
  have ftAll : FileTouch pc k b1 b :=
    FileTouch_comp ft2 (FileTouch_comp ft3 (FileTouch_comp ft4 ft5))
  rcases bucketInit_pt h1 with h' | ⟨hdk, tn, hta, rfl⟩
  · exact Or.inl ⟨b1, h', ftAll⟩
  · exact Or.inr ⟨hdk, tn, hta, ftAll⟩

/-- Bucket existence survives one whole first-pass step. -/
theorem pass1Step_pt_pres {st : Pass1State} {pc : String × YVal} {k : String}
    (h : ∃ b, jsObjGet st.perTurnData k = some b) :
    ∃ b, jsObjGet (pass1Step st pc).perTurnData k = some b := by
  simp only [pass1Step]
  exact kindRoute_pt_pres (kindRoute_pt_pres (kindRoute_pt_pres
    (kindRoute_pt_pres (bucketInit_pt_pres h))))

/-- A file with a resolvable turn key guarantees its bucket exists after
its first-pass step. -/
theorem pass1Step_pt_est {st : Pass1State} {pc : String × YVal} {k : String}
    (hdk : turnKeyOf pc.1.data = some k) :
    ∃ b, jsObjGet (pass1Step st pc).perTurnData k = some b := by
  obtain ⟨tn, hta, _⟩ := Option.map_eq_some'.mp hdk
  simp only [pass1Step]
  rw [hdk, hta]
  exact kindRoute_pt_pres (kindRoute_pt_pres (kindRoute_pt_pres
    (kindRoute_pt_pres bucketInit_pt_est)))

/-- A global field set by this routing stage. -/
theorem kindRoute_proj_hit (F : Pass1State → YVal) {suffix : String}
    {setG : YVal → Pass1State → Pass1State} {setB : YVal → TurnBucket → TurnBucket}
    {dk : Option String} {p : List Char} {c : YVal} {st : Pass1State}
    (hproj : ∀ (s : Pass1State) (pt : List (String × TurnBucket)),
      F ⟨s.metrics, s.status, s.coordination, s.snapshotMappings, pt⟩ = F s)
    (hset : ∀ v s, F (setG v s) = v) :
    F (kindRoute suffix setG setB dk p c st) =
      if isKindFile suffix p c = true then c else F st := by
  unfold kindRoute
  split_ifs with h
  · exact (hproj (setG c st) _).trans (hset c st)
  · rfl

/-- A global field untouched by this routing stage. -/
theorem kindRoute_proj_miss (F : Pass1State → YVal) {suffix : String}
    {setG : YVal → Pass1State → Pass1State} {setB : YVal → TurnBucket → TurnBucket}
    {dk : Option String} {p : List Char} {c : YVal} {st : Pass1State}
    (hproj : ∀ (s : Pass1State) (pt : List (String × TurnBucket)),
      F ⟨s.metrics, s.status, s.coordination, s.snapshotMappings, pt⟩ = F s)
    (hset : ∀ v s, F (setG v s) = F s) :
    F (kindRoute suffix setG setB dk p c st) = F st := by
  unfold kindRoute
  split_ifs with h
  · exact (hproj (setG c st) _).trans (hset c st)
  · rfl

/-- The global metrics document after one first-pass step. -/
theorem pass1Step_metrics (st : Pass1State) (pc : String × YVal) :
    (pass1Step st pc).metrics =
      if isKindFile "metrics_summary.json" pc.1.data pc.2 = true then pc.2
      else st.metrics := by
  show Pass1State.metrics (pass1Step st pc) = _
  simp only [pass1Step]
  rw [kindRoute_proj_miss Pass1State.metrics (by intro s pt; rfl) (by intro v s; rfl),
    kindRoute_proj_miss Pass1State.metrics (by intro s pt; rfl) (by intro v s; rfl),
    kindRoute_proj_miss Pass1State.metrics (by intro s pt; rfl) (by intro v s; rfl),
    kindRoute_proj_hit Pass1State.metrics (by intro s pt; rfl) (by intro v s; rfl)]
  rfl

/-- The global status document after one first-pass step. -/
theorem pass1Step_status (st : Pass1State) (pc : String × YVal) :
    (pass1Step st pc).status =
      if isKindFile "status.json" pc.1.data pc.2 = true then pc.2
      else st.status := by
  show Pass1State.status (pass1Step st pc) = _
  simp only [pass1Step]
  rw [kindRoute_proj_miss Pass1State.status (by intro s pt; rfl) (by intro v s; rfl),
    kindRoute_proj_miss Pass1State.status (by intro s pt; rfl) (by intro v s; rfl),
    kindRoute_proj_hit Pass1State.status (by intro s pt; rfl) (by intro v s; rfl),
    kindRoute_proj_miss Pass1State.status (by intro s pt; rfl) (by intro v s; rfl)]
  rfl

/-- The global coordination document after one first-pass step. -/
theorem pass1Step_coordination (st : Pass1State) (pc : String × YVal) :
    (pass1Step st pc).coordination =
      if isKindFile "coordination_events.json" pc.1.data pc.2 = true then pc.2
      else st.coordination := by
  show Pass1State.coordination (pass1Step st pc) = _
  simp only [pass1Step]
  rw [kindRoute_proj_miss Pass1State.coordination (by intro s pt; rfl) (by intro v s; rfl),
    kindRoute_proj_hit Pass1State.coordination (by intro s pt; rfl) (by intro v s; rfl),
    kindRoute_proj_miss Pass1State.coordination (by intro s pt; rfl) (by intro v s; rfl),
    kindRoute_proj_miss Pass1State.coordination (by intro s pt; rfl) (by intro v s; rfl)]
  rfl

/-- The global snapshot-mappings document after one first-pass step. -/
theorem pass1Step_snapshot (st : Pass1State) (pc : String × YVal) :
    (pass1Step st pc).snapshotMappings =
      if isKindFile "snapshot_mappings.json" pc.1.data pc.2 = true then pc.2
      else st.snapshotMappings := by
  show Pass1State.snapshotMappings (pass1Step st pc) = _
  simp only [pass1Step]
  rw [kindRoute_proj_hit Pass1State.snapshotMappings (by intro s pt; rfl) (by intro v s; rfl)]
  rw [kindRoute_proj_miss Pass1State.snapshotMappings (by intro s pt; rfl) (by intro v s; rfl),
    kindRoute_proj_miss Pass1State.snapshotMappings (by intro s pt; rfl) (by intro v s; rfl),
    kindRoute_proj_miss Pass1State.snapshotMappings (by intro s pt; rfl) (by intro v s; rfl)]
  rfl

/-- The record built for an answer file carries the file's own turn key. -/
theorem answerRecOf_turnKey {p : List Char} {c : YVal} {lbl : String}
    {ad : AnswerRec} (h : answerRecOf p c = some (lbl, ad)) :
    ad.turnKey = turnKeyOf p := by
  simp only [answerRecOf] at h
  split_ifs at h <;>
    rcases h1 : segOrNull (extractAgentL p).1 with _ | aid <;> rw [h1] at h <;>
    rcases h2 : segOrNull (extractAgentL p).2 with _ | ts <;> rw [h2] at h <;>
    cases c <;>
    simp only [Option.some.injEq, Prod.mk.injEq, reduceCtorEq] at h <;>
    obtain ⟨-, h⟩ := h <;> rw [← h]

/-- Bucket evolution across one answers-pass step. -/
theorem answersStep_pt {st : List (String × AnswerRec) × List (String × TurnBucket)}
    {pc : String × YVal} {k : String} {b : TurnBucket}
    (h : jsObjGet (answersStep st pc).2 k = some b) :
    ∃ b0, jsObjGet st.2 k = some b0 ∧ b.votes = b0.votes ∧
      b.metrics = b0.metrics ∧ b.status = b0.status ∧
      b.coordination = b0.coordination ∧ b.snapshotMappings = b0.snapshotMappings ∧
      (b.answers = b0.answers ∨ ∃ lbl ad,
        answerRecOf pc.1.data pc.2 = some (lbl, ad) ∧
        turnKeyOf pc.1.data = some k ∧
        b.answers = jsObjSet b0.answers lbl ad) := by
  unfold answersStep at h
  rcases har : answerRecOf pc.1.data pc.2 with _ | ⟨lbl, ad⟩
  · rw [har] at h
    exact ⟨b, h, rfl, rfl, rfl, rfl, rfl, Or.inl rfl⟩
  · rw [har] at h
    dsimp only at h
    rcases hdk : turnKeyOf pc.1.data with _ | k0
    · rw [hdk] at h
      exact ⟨b, h, rfl, rfl, rfl, rfl, rfl, Or.inl rfl⟩
    · rw [hdk] at h
      dsimp only at h
      rcases hex : jsObjGet st.2 k0 with _ | b0 <;> rw [hex] at h
      · exact ⟨b, h, rfl, rfl, rfl, rfl, rfl, Or.inl rfl⟩
      · dsimp only at h
        by_cases hk : k = k0
        · subst hk
          rw [get_updBucket, if_pos rfl, hex] at h
          obtain rfl : { b0 with answers := jsObjSet b0.answers lbl ad } = b :=
            Option.some.injEq _ _ ▸ h
          exact ⟨b0, hex, rfl, rfl, rfl, rfl, rfl,
            Or.inr ⟨lbl, ad, rfl, rfl, rfl⟩⟩
        · rw [get_updBucket, if_neg hk] at h
          exact ⟨b, h, rfl, rfl, rfl, rfl, rfl, Or.inl rfl⟩

/-- Bucket existence survives one answers-pass step. -/
theorem answersStep_pt_pres
    {st : List (String × AnswerRec) × List (String × TurnBucket)}
    {pc : String × YVal} {k : String}
    (h : ∃ b, jsObjGet st.2 k = some b) :
    ∃ b, jsObjGet (answersStep st pc).2 k = some b := by
  obtain ⟨b, hb⟩ := h
  unfold answersStep
  rcases har : answerRecOf pc.1.data pc.2 with _ | ⟨lbl, ad⟩
  · exact ⟨b, hb⟩
  · dsimp only
    rcases hdk : turnKeyOf pc.1.data with _ | k0
    · exact ⟨b, hb⟩
    · dsimp only
      rcases hex : jsObjGet st.2 k0 with _ | b0
      · exact ⟨b, hb⟩
      · dsimp only
        by_cases hk : k = k0
        · subst hk
          rw [get_updBucket, if_pos rfl, hex]
          exact ⟨_, rfl⟩
        · rw [get_updBucket, if_neg hk]
          exact ⟨b, hb⟩

/-- A label present in the global answers map stays present. -/
theorem answersStep_glob_pres
    {st : List (String × AnswerRec) × List (String × TurnBucket)}
    {pc : String × YVal} {lbl : String}
    (h : lbl ∈ st.1.map (·.1)) : lbl ∈ (answersStep st pc).1.map (·.1) := by
  unfold answersStep
  rcases har : answerRecOf pc.1.data pc.2 with _ | ⟨lbl0, ad0⟩
  · exact h
  · exact key_mem_jsObjSet_of_mem _ _ h

/-- A label present in a bucket's answers stays present. -/
theorem answersStep_bucket_pres
    {st : List (String × AnswerRec) × List (String × TurnBucket)}
    {pc : String × YVal} {k : String} {lbl : String}
    (h : ∃ b, jsObjGet st.2 k = some b ∧ lbl ∈ b.answers.map (·.1)) :
    ∃ b, jsObjGet (answersStep st pc).2 k = some b ∧ lbl ∈ b.answers.map (·.1) := by
  obtain ⟨b, hb, hmem⟩ := h
  unfold answersStep
  rcases har : answerRecOf pc.1.data pc.2 with _ | ⟨lbl0, ad0⟩
  · exact ⟨b, hb, hmem⟩
  · dsimp only
    rcases hdk : turnKeyOf pc.1.data with _ | k0
    · exact ⟨b, hb, hmem⟩
    · dsimp only
      rcases hex : jsObjGet st.2 k0 with _ | b0
      · exact ⟨b, hb, hmem⟩
      · dsimp only
        by_cases hk : k = k0
        · subst hk
          rw [get_updBucket, if_pos rfl, hex]
          obtain rfl : b0 = b := by
            rw [hb] at hex
            exact (Option.some.injEq _ _ ▸ hex).symm
          exact ⟨_, rfl, key_mem_jsObjSet_of_mem _ _ hmem⟩
        · rw [get_updBucket, if_neg hk]
          exact ⟨b, hb, hmem⟩

/-- Processing an answer file writes its label into its own bucket and
into the global answers map. -/
theorem answersStep_est
    {st : List (String × AnswerRec) × List (String × TurnBucket)}
    {pc : String × YVal} {k : String} {lbl : String} {ad : AnswerRec}
    (har : answerRecOf pc.1.data pc.2 = some (lbl, ad))
    (hdk : turnKeyOf pc.1.data = some k)
    (hex : ∃ b0, jsObjGet st.2 k = some b0) :
    (∃ b, jsObjGet (answersStep st pc).2 k = some b ∧
      lbl ∈ b.answers.map (·.1)) ∧
    lbl ∈ (answersStep st pc).1.map (·.1) := by
  obtain ⟨b0, hb0⟩ := hex
  unfold answersStep
  rw [har]
  dsimp only
  rw [hdk]
  dsimp only
  rw [hb0]
  dsimp only
  constructor
  · rw [get_updBucket, if_pos rfl, hb0]
    exact ⟨_, rfl, key_mem_jsObjSet _ _ _⟩
  · exact key_mem_jsObjSet _ _ _

/-- A vote file's record is among its agent's encounter records. -/
theorem mem_encounterVotes {files : List (String × YVal)} {pc : String × YVal}
    {aid : String} {vr : VoteRec} (hpc : pc ∈ files)
    (hv : voteRecOf pc.1.data pc.2 = some (aid, vr)) :
    vr ∈ encounterVotes files aid := by
  refine List.mem_filterMap.mpr ⟨pc, hpc, ?_⟩
  rw [hv]
  simp

/-- Claim C4, amended (corrected): for every input file map,
(1) no turn bucket ever holds a vote — vote documents reach the global
vote lists only;
(2) a turn bucket only holds answer records carrying that bucket's own
turn key (exclusivity);
(3) every answer file with a resolvable turn key is written into the
bucket of that key and into the global answers map (completeness);
(4) every file with a resolvable turn key has its bucket;
(5) a bucket's session documents (metrics/status/coordination/snapshots)
are either still the initial empty object or the content of some file of
that kind carrying that same turn key (exclusivity);
(6) the global session documents likewise come from files of their kind;
(7) every vote document reaches its agent's global vote history. -/
theorem C4_partition_amended (files : List (String × YVal)) :
    (∀ k b, jsObjGet (extractSessionDataM files).perTurnData k = some b →
      b.votes = []) ∧
    (∀ k b, jsObjGet (extractSessionDataM files).perTurnData k = some b →
      ∀ lbl ad, (lbl, ad) ∈ b.answers → ad.turnKey = some k) ∧
    (∀ pc ∈ files, ∀ lbl ad, answerRecOf pc.1.data pc.2 = some (lbl, ad) →
      ∀ k, turnKeyOf pc.1.data = some k →
      (∃ b, jsObjGet (extractSessionDataM files).perTurnData k = some b ∧
        lbl ∈ b.answers.map (·.1)) ∧
      lbl ∈ (extractSessionDataM files).answers.map (·.1)) ∧
    (∀ pc ∈ files, ∀ k, turnKeyOf pc.1.data = some k →
      ∃ b, jsObjGet (extractSessionDataM files).perTurnData k = some b) ∧
    (∀ k b, jsObjGet (extractSessionDataM files).perTurnData k = some b →
      (b.metrics = .vmap [] ∨ ∃ pc ∈ files,
        isKindFile "metrics_summary.json" pc.1.data pc.2 = true ∧
        turnKeyOf pc.1.data = some k ∧ b.metrics = pc.2) ∧
      (b.status = .vmap [] ∨ ∃ pc ∈ files,
        isKindFile "status.json" pc.1.data pc.2 = true ∧
        turnKeyOf pc.1.data = some k ∧ b.status = pc.2) ∧
      (b.coordination = .vmap [] ∨ ∃ pc ∈ files,
        isKindFile "coordination_events.json" pc.1.data pc.2 = true ∧
        turnKeyOf pc.1.data = some k ∧ b.coordination = pc.2) ∧
      (b.snapshotMappings = .vmap [] ∨ ∃ pc ∈ files,
        isKindFile "snapshot_mappings.json" pc.1.data pc.2 = true ∧
        turnKeyOf pc.1.data = some k ∧ b.snapshotMappings = pc.2)) ∧
    ((extractSessionDataM files).metrics = .vmap [] ∨ ∃ pc ∈ files,
      isKindFile "metrics_summary.json" pc.1.data pc.2 = true ∧
      (extractSessionDataM files).metrics = pc.2) ∧
    ((extractSessionDataM files).status = .vmap [] ∨ ∃ pc ∈ files,
      isKindFile "status.json" pc.1.data pc.2 = true ∧
      (extractSessionDataM files).status = pc.2) ∧
    ((extractSessionDataM files).coordination = .vmap [] ∨ ∃ pc ∈ files,
      isKindFile "coordination_events.json" pc.1.data pc.2 = true ∧
      (extractSessionDataM files).coordination = pc.2) ∧
    ((extractSessionDataM files).snapshotMappings = .vmap [] ∨ ∃ pc ∈ files,
      isKindFile "snapshot_mappings.json" pc.1.data pc.2 = true ∧
      (extractSessionDataM files).snapshotMappings = pc.2) ∧
    (∀ pc ∈ files, ∀ aid vr, voteRecOf pc.1.data pc.2 = some (aid, vr) →
      ∃ l, jsObjGet (extractSessionDataM files).votes aid = some l ∧ vr ∈ l) := by
  have hP1 : ∀ k b, jsObjGet (files.foldl pass1Step
      ⟨.vmap [], .vmap [], .vmap [], .vmap [], []⟩).perTurnData k = some b →
      b.votes = [] ∧ b.answers = [] := by
    refine foldl_inv (P := fun s : Pass1State => ∀ k b,
        jsObjGet s.perTurnData k = some b → b.votes = [] ∧ b.answers = [])
      pass1Step files ⟨.vmap [], .vmap [], .vmap [], .vmap [], []⟩
      (fun k b h => absurd h (by simp [jsObjGet])) ?_
    intro s a _ hP k b h
    rcases pass1Step_evolve h with ⟨b0, hb0, ft⟩ | ⟨_, tn, _, ft⟩
    · exact ⟨ft.1.trans (hP k b0 hb0).1, ft.2.1.trans (hP k b0 hb0).2⟩
    · exact ⟨ft.1, ft.2.1⟩
  have hP4 : ∀ k b, jsObjGet (files.foldl pass1Step
      ⟨.vmap [], .vmap [], .vmap [], .vmap [], []⟩).perTurnData k = some b →
      (b.metrics = .vmap [] ∨ ∃ pc ∈ files,
        isKindFile "metrics_summary.json" pc.1.data pc.2 = true ∧
        turnKeyOf pc.1.data = some k ∧ b.metrics = pc.2) ∧
      (b.status = .vmap [] ∨ ∃ pc ∈ files,
        isKindFile "status.json" pc.1.data pc.2 = true ∧
        turnKeyOf pc.1.data = some k ∧ b.status = pc.2) ∧
      (b.coordination = .vmap [] ∨ ∃ pc ∈ files,
        isKindFile "coordination_events.json" pc.1.data pc.2 = true ∧
        turnKeyOf pc.1.data = some k ∧ b.coordination = pc.2) ∧
      (b.snapshotMappings = .vmap [] ∨ ∃ pc ∈ files,
        isKindFile "snapshot_mappings.json" pc.1.data pc.2 = true ∧
        turnKeyOf pc.1.data = some k ∧ b.snapshotMappings = pc.2) := by
    refine foldl_inv (P := fun s : Pass1State => ∀ k b,
        jsObjGet s.perTurnData k = some b →
        (b.metrics = .vmap [] ∨ ∃ pc ∈ files,
          isKindFile "metrics_summary.json" pc.1.data pc.2 = true ∧
          turnKeyOf pc.1.data = some k ∧ b.metrics = pc.2) ∧
        (b.status = .vmap [] ∨ ∃ pc ∈ files,
          isKindFile "status.json" pc.1.data pc.2 = true ∧
          turnKeyOf pc.1.data = some k ∧ b.status = pc.2) ∧
        (b.coordination = .vmap [] ∨ ∃ pc ∈ files,
          isKindFile "coordination_events.json" pc.1.data pc.2 = true ∧
          turnKeyOf pc.1.data = some k ∧ b.coordination = pc.2) ∧
        (b.snapshotMappings = .vmap [] ∨ ∃ pc ∈ files,
          isKindFile "snapshot_mappings.json" pc.1.data pc.2 = true ∧
          turnKeyOf pc.1.data = some k ∧ b.snapshotMappings = pc.2))
      pass1Step files ⟨.vmap [], .vmap [], .vmap [], .vmap [], []⟩
      (fun k b h => absurd h (by simp [jsObjGet])) ?_
    intro s a ha hP k b h
    have combine : ∀ (b0 : TurnBucket),
        (b0.metrics = .vmap [] ∨ ∃ pc ∈ files,
          isKindFile "metrics_summary.json" pc.1.data pc.2 = true ∧
          turnKeyOf pc.1.data = some k ∧ b0.metrics = pc.2) ∧
        (b0.status = .vmap [] ∨ ∃ pc ∈ files,
          isKindFile "status.json" pc.1.data pc.2 = true ∧
          turnKeyOf pc.1.data = some k ∧ b0.status = pc.2) ∧
        (b0.coordination = .vmap [] ∨ ∃ pc ∈ files,
          isKindFile "coordination_events.json" pc.1.data pc.2 = true ∧
          turnKeyOf pc.1.data = some k ∧ b0.coordination = pc.2) ∧
        (b0.snapshotMappings = .vmap [] ∨ ∃ pc ∈ files,
          isKindFile "snapshot_mappings.json" pc.1.data pc.2 = true ∧
          turnKeyOf pc.1.data = some k ∧ b0.snapshotMappings = pc.2) →
        FileTouch a k b0 b →
        (b.metrics = .vmap [] ∨ ∃ pc ∈ files,
          isKindFile "metrics_summary.json" pc.1.data pc.2 = true ∧
          turnKeyOf pc.1.data = some k ∧ b.metrics = pc.2) ∧
        (b.status = .vmap [] ∨ ∃ pc ∈ files,
          isKindFile "status.json" pc.1.data pc.2 = true ∧
          turnKeyOf pc.1.data = some k ∧ b.status = pc.2) ∧
        (b.coordination = .vmap [] ∨ ∃ pc ∈ files,
          isKindFile "coordination_events.json" pc.1.data pc.2 = true ∧
          turnKeyOf pc.1.data = some k ∧ b.coordination = pc.2) ∧
        (b.snapshotMappings = .vmap [] ∨ ∃ pc ∈ files,
          isKindFile "snapshot_mappings.json" pc.1.data pc.2 = true ∧
          turnKeyOf pc.1.data = some k ∧ b.snapshotMappings = pc.2) := by
      rintro b0 ⟨hm, hs, hc, hn⟩ ⟨-, -, ftm, fts, ftc, ftn⟩
      refine ⟨?_, ?_, ?_, ?_⟩
      · rcases ftm with ftm | ⟨hhit, hdk, hval⟩
        · rw [ftm]; exact hm
        · exact Or.inr ⟨a, ha, hhit, hdk, hval⟩
      · rcases fts with fts | ⟨hhit, hdk, hval⟩
        · rw [fts]; exact hs
        · exact Or.inr ⟨a, ha, hhit, hdk, hval⟩
      · rcases ftc with ftc | ⟨hhit, hdk, hval⟩
        · rw [ftc]; exact hc
        · exact Or.inr ⟨a, ha, hhit, hdk, hval⟩
      · rcases ftn with ftn | ⟨hhit, hdk, hval⟩
        · rw [ftn]; exact hn
        · exact Or.inr ⟨a, ha, hhit, hdk, hval⟩
    rcases pass1Step_evolve h with ⟨b0, hb0, ft⟩ | ⟨_, tn, _, ft⟩
    · exact combine b0 (hP k b0 hb0) ft
    · exact combine (freshBucket tn)
        ⟨Or.inl rfl, Or.inl rfl, Or.inl rfl, Or.inl rfl⟩ ft
  have hSDpt : (extractSessionDataM files).perTurnData =
      (files.foldl answersStep ([], (files.foldl pass1Step
        ⟨.vmap [], .vmap [], .vmap [], .vmap [], []⟩).perTurnData)).2 := rfl
  have hSDans : (extractSessionDataM files).answers =
      (files.foldl answersStep ([], (files.foldl pass1Step
        ⟨.vmap [], .vmap [], .vmap [], .vmap [], []⟩).perTurnData)).1 := rfl
  refine ⟨?_, ?_, ?_, ?_, ?_, ?_, ?_, ?_, ?_, ?_⟩
  · -- (1) no votes in buckets
    intro k b h
    rw [hSDpt] at h
    refine foldl_inv (P := fun s : List (String × AnswerRec) ×
        List (String × TurnBucket) => ∀ k b, jsObjGet s.2 k = some b →
        b.votes = []) answersStep files
      ([], (files.foldl pass1Step
        ⟨.vmap [], .vmap [], .vmap [], .vmap [], []⟩).perTurnData)
      (fun k b h => (hP1 k b h).1) ?_ k b h
    intro s a _ hP k b h
    obtain ⟨b0, hb0, hv, -⟩ := answersStep_pt h
    exact hv.trans (hP k b0 hb0)
  · -- (2) answers exclusivity
    intro k b h
    rw [hSDpt] at h
    refine foldl_inv (P := fun s : List (String × AnswerRec) ×
        List (String × TurnBucket) => ∀ k b, jsObjGet s.2 k = some b →
        ∀ lbl ad, (lbl, ad) ∈ b.answers → ad.turnKey = some k) answersStep files
      ([], (files.foldl pass1Step
        ⟨.vmap [], .vmap [], .vmap [], .vmap [], []⟩).perTurnData) ?_ ?_ k b h
    · intro k b h lbl ad hmem
      rw [(hP1 k b h).2] at hmem
      exact absurd hmem (List.not_mem_nil _)
    · intro s a _ hP k b h lbl ad hmem
      obtain ⟨b0, hb0, -, -, -, -, -, hans⟩ := answersStep_pt h
      rcases hans with hans | ⟨lbl0, ad0, har, hdk, hans⟩
      · exact hP k b0 hb0 lbl ad (hans ▸ hmem)
      · rw [hans] at hmem
        rcases mem_jsObjSet hmem with h' | h'
        · obtain ⟨-, rfl⟩ := Prod.mk.injEq .. ▸ h'
          rw [answerRecOf_turnKey har]
          exact hdk
        · exact hP k b0 hb0 lbl ad h'
  · -- (3) answers completeness
    intro pc hpc lbl ad har k hdk
    have hbase : ∃ b, jsObjGet (files.foldl pass1Step
        ⟨.vmap [], .vmap [], .vmap [], .vmap [], []⟩).perTurnData k = some b := by
      refine foldl_mem_inv (I := fun _ => True)
        (Q := fun s : Pass1State => ∃ b, jsObjGet s.perTurnData k = some b)
        pass1Step files ⟨.vmap [], .vmap [], .vmap [], .vmap [], []⟩ hpc trivial
        (fun _ _ _ _ => trivial)
        (fun s _ => pass1Step_pt_est hdk)
        (fun s a _ hq => pass1Step_pt_pres hq)
    rw [hSDpt, hSDans]
    have := foldl_mem_inv (I := fun s : List (String × AnswerRec) ×
        List (String × TurnBucket) => ∃ b, jsObjGet s.2 k = some b)
      (Q := fun s : List (String × AnswerRec) × List (String × TurnBucket) =>
        (∃ b, jsObjGet s.2 k = some b ∧ lbl ∈ b.answers.map (·.1)) ∧
        lbl ∈ s.1.map (·.1))
      answersStep files
      ([], (files.foldl pass1Step
        ⟨.vmap [], .vmap [], .vmap [], .vmap [], []⟩).perTurnData)
      hpc hbase
      (fun s a _ hI => answersStep_pt_pres hI)
      (fun s hI => answersStep_est har hdk hI)
      (fun s a _ hQ => ⟨answersStep_bucket_pres hQ.1, answersStep_glob_pres hQ.2⟩)
    exact this
  · -- (4) bucket existence
    intro pc hpc k hdk
    have hbase : ∃ b, jsObjGet (files.foldl pass1Step
        ⟨.vmap [], .vmap [], .vmap [], .vmap [], []⟩).perTurnData k = some b := by
      refine foldl_mem_inv (I := fun _ => True)
        (Q := fun s : Pass1State => ∃ b, jsObjGet s.perTurnData k = some b)
        pass1Step files ⟨.vmap [], .vmap [], .vmap [], .vmap [], []⟩ hpc trivial
        (fun _ _ _ _ => trivial)
        (fun s _ => pass1Step_pt_est hdk)
        (fun s a _ hq => pass1Step_pt_pres hq)
    rw [hSDpt]
    exact foldl_inv (P := fun s : List (String × AnswerRec) ×
        List (String × TurnBucket) => ∃ b, jsObjGet s.2 k = some b)
      answersStep files
      ([], (files.foldl pass1Step
        ⟨.vmap [], .vmap [], .vmap [], .vmap [], []⟩).perTurnData)
      hbase (fun s a _ hq => answersStep_pt_pres hq)
  · -- (5) bucket session documents
    intro k b h
    rw [hSDpt] at h
    refine foldl_inv (P := fun s : List (String × AnswerRec) ×
        List (String × TurnBucket) => ∀ k b, jsObjGet s.2 k = some b →
        (b.metrics = .vmap [] ∨ ∃ pc ∈ files,
          isKindFile "metrics_summary.json" pc.1.data pc.2 = true ∧
          turnKeyOf pc.1.data = some k ∧ b.metrics = pc.2) ∧
        (b.status = .vmap [] ∨ ∃ pc ∈ files,
          isKindFile "status.json" pc.1.data pc.2 = true ∧
          turnKeyOf pc.1.data = some k ∧ b.status = pc.2) ∧
        (b.coordination = .vmap [] ∨ ∃ pc ∈ files,
          isKindFile "coordination_events.json" pc.1.data pc.2 = true ∧
          turnKeyOf pc.1.data = some k ∧ b.coordination = pc.2) ∧
        (b.snapshotMappings = .vmap [] ∨ ∃ pc ∈ files,
          isKindFile "snapshot_mappings.json" pc.1.data pc.2 = true ∧
          turnKeyOf pc.1.data = some k ∧ b.snapshotMappings = pc.2))
      answersStep files
      ([], (files.foldl pass1Step
        ⟨.vmap [], .vmap [], .vmap [], .vmap [], []⟩).perTurnData)
      hP4 ?_ k b h
    intro s a _ hP k b h
    obtain ⟨b0, hb0, -, hm, hs, hc, hn, -⟩ := answersStep_pt h
    have := hP k b0 hb0
    exact ⟨hm ▸ this.1, hs ▸ this.2.1, hc ▸ this.2.2.1, hn ▸ this.2.2.2⟩
  · -- (6a) global metrics
    refine foldl_inv (P := fun s : Pass1State => s.metrics = .vmap [] ∨
      ∃ pc ∈ files, isKindFile "metrics_summary.json" pc.1.data pc.2 = true ∧
        s.metrics = pc.2) pass1Step files
      ⟨.vmap [], .vmap [], .vmap [], .vmap [], []⟩
      (Or.inl rfl) ?_
    intro s a ha hP
    rw [pass1Step_metrics]
    split_ifs with hhit
    · exact Or.inr ⟨a, ha, hhit, rfl⟩
    · exact hP
  · -- (6b) global status
    refine foldl_inv (P := fun s : Pass1State => s.status = .vmap [] ∨
      ∃ pc ∈ files, isKindFile "status.json" pc.1.data pc.2 = true ∧
        s.status = pc.2) pass1Step files
      ⟨.vmap [], .vmap [], .vmap [], .vmap [], []⟩
      (Or.inl rfl) ?_
    intro s a ha hP
    rw [pass1Step_status]
    split_ifs with hhit
    · exact Or.inr ⟨a, ha, hhit, rfl⟩
    · exact hP
  · -- (6c) global coordination
    refine foldl_inv (P := fun s : Pass1State => s.coordination = .vmap [] ∨
      ∃ pc ∈ files, isKindFile "coordination_events.json" pc.1.data pc.2 = true ∧
        s.coordination = pc.2) pass1Step files
      ⟨.vmap [], .vmap [], .vmap [], .vmap [], []⟩
      (Or.inl rfl) ?_
    intro s a ha hP
    rw [pass1Step_coordination]
    split_ifs with hhit
    · exact Or.inr ⟨a, ha, hhit, rfl⟩
    · exact hP
  · -- (6d) global snapshot mappings
    refine foldl_inv (P := fun s : Pass1State => s.snapshotMappings = .vmap [] ∨
      ∃ pc ∈ files, isKindFile "snapshot_mappings.json" pc.1.data pc.2 = true ∧
        s.snapshotMappings = pc.2) pass1Step files
      ⟨.vmap [], .vmap [], .vmap [], .vmap [], []⟩
      (Or.inl rfl) ?_
    intro s a ha hP
    rw [pass1Step_snapshot]
    split_ifs with hhit
    · exact Or.inr ⟨a, ha, hhit, rfl⟩
    · exact hP
  · -- (7) votes reach the global history
    intro pc hpc aid vr hv
    have hmem := mem_encounterVotes hpc hv
    have hpre := votesStep_foldl_none aid files [] rfl
    have hvotes : (extractSessionDataM files).votes =
        (files.foldl votesStep []).map fun kv => (kv.1, sortVotes kv.2) := rfl
    rcases henc : encounterVotes files aid with _ | ⟨x, xs⟩
    · rw [henc] at hmem
      exact absurd hmem (List.not_mem_nil _)
    · rw [henc] at hpre hmem
      refine ⟨sortVotes (x :: xs), ?_, ?_⟩
      · rw [hvotes, jsObjGet_map_val, hpre]
        rfl
      · exact ((List.perm_insertionSort voteLe _).mem_iff).mpr hmem

/-- Witness for the amended C4 theorem: on the single-vote input the turn
bucket `1_1` exists and its votes list is empty. -/
theorem C4_partition_amended_witness : (freshBucket (1, 1)).votes = [] :=
  (C4_partition_amended c4Files).1 "1_1" (freshBucket (1, 1)) rfl

/-! ## Lemmas about flattening and classification (claims C2 and C7) -/

/-- A digit is not an underscore. -/
theorem ne_us_of_digit {c : Char} (h : c.isDigit = true) : c ≠ '_' := by
  intro heq
  subst heq
  exact absurd h (by decide)

/-- A digit is not a slash. -/
theorem ne_slash_of_digit {c : Char} (h : c.isDigit = true) : c ≠ '/' := by
  intro heq
  subst heq
  exact absurd h (by decide)

/-- A lowercase letter is not an underscore. -/
theorem ne_us_of_lower {c : Char} (h : c.isLower = true) : c ≠ '_' := by
  intro heq
  subst heq
  exact absurd h (by decide)

/-- A lowercase letter is not a slash. -/
theorem ne_slash_of_lower {c : Char} (h : c.isLower = true) : c ≠ '/' := by
  intro heq
  subst heq
  exact absurd h (by decide)

/-- Flattening distributes over concatenation. -/
theorem flattenL_append : ∀ (A B : List Char),
    flattenL (A ++ B) = flattenL A ++ flattenL B
  | [], _ => rfl
  | a :: A, B => by
    by_cases h : a = '/' <;> simp [flattenL, h, flattenL_append A B]

/-- Flattening a slash-free piece is the identity. -/
theorem flattenL_id : ∀ {A : List Char}, (∀ c ∈ A, c ≠ '/') → flattenL A = A
  | [], _ => rfl
  | a :: A, h => by
    have ha : a ≠ '/' := h a (List.mem_cons_self a A)
    simp [flattenL, ha, flattenL_id (fun c hc => h c (List.mem_cons_of_mem a hc))]

/-- Flattening a slash. -/
theorem flattenL_cons_slash (r : List Char) :
    flattenL ('/' :: r) = '_' :: '_' :: flattenL r := by
  simp [flattenL]

/-- No slash survives flattening. -/
theorem slash_not_mem_flattenL : ∀ (A : List Char), '/' ∉ flattenL A
  | [] => List.not_mem_nil _
  | a :: A => by
    by_cases h : a = '/' <;> simp [flattenL, h, slash_not_mem_flattenL A]
    intro heq
    exact h heq.symm

/-- A substring of the tail is a substring of the whole. -/
theorem hasSub_append (pat : List Char) :
    ∀ (A B : List Char), hasSub pat B = true → hasSub pat (A ++ B) = true
  | [], _, h => h
  | a :: A, B, h => by
    simp only [List.cons_append, hasSub, List.append_eq, hasSub_append pat A B h,
      Bool.or_true]

/-- A literal is a prefix of itself followed by anything. -/
theorem isPrefixOf_append_self (pat X : List Char) :
    pat.isPrefixOf (pat ++ X) = true :=
  List.isPrefixOf_iff_prefix.mpr (List.prefix_append _ _)

/-- Stripping a literal prefix off itself followed by anything. -/
theorem stripLit_self (pat X : List Char) : stripLit pat (pat ++ X) = some X := by
  unfold stripLit
  rw [if_pos (isPrefixOf_append_self pat X), List.drop_left]

/-- `takeWhile` stops exactly at the first failing element. -/
theorem takeWhile_all_append {p : Char → Bool} :
    ∀ {A : List Char} {b : Char} (B : List Char), (∀ c ∈ A, p c = true) →
      p b = false → (A ++ b :: B).takeWhile p = A
  | [], b, B, _, hb => by simp [List.takeWhile_cons, hb]
  | a :: A, b, B, hA, hb => by
    have ha := hA a (List.mem_cons_self a A)
    simp only [List.cons_append, List.takeWhile_cons, ha, if_true]
    rw [takeWhile_all_append B (fun c hc => hA c (List.mem_cons_of_mem a hc)) hb]

/-- `dropWhile` stops exactly at the first failing element. -/
theorem dropWhile_all_append {p : Char → Bool} :
    ∀ {A : List Char} {b : Char} (B : List Char), (∀ c ∈ A, p c = true) →
      p b = false → (A ++ b :: B).dropWhile p = b :: B
  | [], b, B, _, hb => by simp [List.dropWhile_cons, hb]
  | a :: A, b, B, hA, hb => by
    have ha := hA a (List.mem_cons_self a A)
    simp only [List.cons_append, List.dropWhile_cons, ha, if_true]
    exact dropWhile_all_append B (fun c hc => hA c (List.mem_cons_of_mem a hc)) hb

/-- A nonempty list is not `isEmpty`. -/
theorem isEmpty_false_of_ne_nil {A : List Char} (h : A ≠ []) :
    A.isEmpty = false := by
  cases A
  · exact absurd rfl h
  · rfl

/-- `noUU2` holds of an underscore-free piece. -/
theorem noUU2_no_us : ∀ {A : List Char}, (∀ c ∈ A, c ≠ '_') → noUU2 A = true
  | [], _ => rfl
  | [a], h => by
    have := h a (List.mem_cons_self a [])
    simp [noUU2, this]
  | a :: b :: A, h => by
    have ha := h a (List.mem_cons_self _ _)
    have hrest := noUU2_no_us (fun c hc => h c (List.mem_cons_of_mem a hc))
    simp only [noUU2, hrest, Bool.and_true]
    simp [ha]

/-- `noUU2` holds of `X_Y` for underscore-free nonempty `X` and `Y`. -/
theorem noUU2_single_us :
    ∀ {A : List Char} {B : List Char}, (∀ c ∈ A, c ≠ '_') → A ≠ [] →
      (∀ c ∈ B, c ≠ '_') → B ≠ [] → noUU2 (A ++ '_' :: B) = true
  | [], _, _, hA0, _, _ => absurd rfl hA0
  | [a], B, hA, _, hB, hB0 => by
    have ha := hA a (List.mem_cons_self a [])
    rcases B with _ | ⟨b, B⟩
    · exact absurd rfl hB0
    · have hb := hB b (List.mem_cons_self b B)
      have hrest : noUU2 (b :: B) = true := noUU2_no_us hB
      simp only [List.cons_append, List.nil_append, noUU2, hrest]
      simp [ha, hb]
  | a1 :: a2 :: A, B, hA, _, hB, hB0 => by
    have ha1 := hA a1 (List.mem_cons_self _ _)
    have hrest : noUU2 ((a2 :: A) ++ '_' :: B) = true :=
      noUU2_single_us (fun c hc => hA c (List.mem_cons_of_mem a1 hc))
        (List.cons_ne_nil a2 A) hB hB0
    simp only [List.cons_append] at hrest ⊢
    simp only [noUU2, hrest, Bool.and_true]
    simp [ha1]

/-- Splitting on `__` after an intact piece. -/
theorem splitUU_append_uu : ∀ {A : List Char} (B : List Char),
    noUU2 A = true → splitUU (A ++ '_' :: '_' :: B) = A :: splitUU B
  | [], B, _ => rfl
  | [a], B, h => by
    have ha : a ≠ '_' := by
      intro hc
      subst hc
      exact absurd h (by decide)
    have inner : splitUU ('_' :: '_' :: B) = [] :: splitUU B := rfl
    show splitUU (a :: '_' :: '_' :: B) = [a] :: splitUU B
    rw [splitUU, if_neg (by simp [ha]), inner]
    rfl
  | a1 :: a2 :: A, B, h => by
    have hcond : ¬(a1 = '_' ∧ a2 = '_') := by
      intro ⟨h1, h2⟩
      subst h1
      subst h2
      simp [noUU2] at h
    have h2 : noUU2 (a2 :: A) = true := by
      simp only [noUU2, Bool.and_eq_true] at h
      exact h.2
    show splitUU (a1 :: a2 :: (A ++ '_' :: '_' :: B)) = (a1 :: a2 :: A) :: splitUU B
    rw [splitUU, if_neg hcond]
    have := splitUU_append_uu B h2
    simp only [List.cons_append] at this
    rw [this]
    rfl

/-- Splitting on a separator character after an intact piece. -/
theorem splitChar_append {c : Char} : ∀ {A : List Char} (B : List Char),
    (∀ x ∈ A, x ≠ c) → splitChar c (A ++ c :: B) = A :: splitChar c B
  | [], B, _ => by
    show splitChar c (c :: B) = [] :: splitChar c B
    rw [splitChar, if_pos rfl]
  | a :: A, B, h => by
    have ha : a ≠ c := h a (List.mem_cons_self a A)
    show splitChar c (a :: (A ++ c :: B)) = (a :: A) :: splitChar c B
    rw [splitChar, if_neg ha,
      splitChar_append B (fun x hx => h x (List.mem_cons_of_mem a hx))]
    rfl

/-- The timestamp pattern accepts `DDDDDDDD_D+`. -/
theorem matchesTs_true {d8 d : List Char} (h8 : d8.length = 8)
    (h81 : ∀ c ∈ d8, c.isDigit = true) (hd : d ≠ [])
    (hd1 : ∀ c ∈ d, c.isDigit = true) :
    matchesTs (d8 ++ '_' :: d) = true := by
  unfold matchesTs
  rw [show (8 : Nat) = d8.length from h8.symm, List.take_left, List.drop_left]
  rcases d with _ | ⟨d0, dr⟩
  · exact absurd rfl hd
  · have hd0 := hd1 d0 (List.mem_cons_self d0 dr)
    simp [h8, List.all_eq_true, hd0]
    exact h81


-- Piece 1: extractTurnAttempt on canonical nested paths
theorem extractTurnAttempt_slash (N M R2 : List Char)
    (hN : N ≠ []) (hN1 : ∀ c ∈ N, c.isDigit = true)
    (hM : M ≠ []) (hM1 : ∀ c ∈ M, c.isDigit = true) :
    extractTurnAttempt
        ("turn_".data ++ (N ++ '/' :: ("attempt_".data ++ (M ++ '/' :: R2))))
      = some (natOfDigits N, natOfDigits M) := by
  have e1 : (N ++ '/' :: ("attempt_".data ++ (M ++ '/' :: R2))).takeWhile Char.isDigit
      = N := takeWhile_all_append _ hN1 (by decide)
  have e2 : (N ++ '/' :: ("attempt_".data ++ (M ++ '/' :: R2))).dropWhile Char.isDigit
      = '/' :: ("attempt_".data ++ (M ++ '/' :: R2)) :=
    dropWhile_all_append _ hN1 (by decide)
  have e3 : (M ++ '/' :: R2).takeWhile Char.isDigit = M :=
    takeWhile_all_append _ hM1 (by decide)
  have e4 : (M ++ '/' :: R2).dropWhile Char.isDigit = '/' :: R2 :=
    dropWhile_all_append _ hM1 (by decide)
  have e5 : oneSep ('/' :: ("attempt_".data ++ (M ++ '/' :: R2)))
      = some ("attempt_".data ++ (M ++ '/' :: R2)) := rfl
  have e6 : sepsStar ("attempt_".data ++ (M ++ '/' :: R2))
      = "attempt_".data ++ (M ++ '/' :: R2) := rfl
  have e7 : (oneSep ('/' :: R2)).isSome = true := rfl
  simp only [extractTurnAttempt, stripLit_self, e1, e2, isEmpty_false_of_ne_nil hN,
    Bool.false_eq_true, if_false, sepsPlus, e5, e6, Option.map_some', e3, e4,
    isEmpty_false_of_ne_nil hM, e7, if_true]

-- Piece 2: the flattened variant with __ separators
theorem extractTurnAttempt_uu (N M R2 : List Char)
    (hN : N ≠ []) (hN1 : ∀ c ∈ N, c.isDigit = true)
    (hM : M ≠ []) (hM1 : ∀ c ∈ M, c.isDigit = true) :
    extractTurnAttempt
        ("turn_".data ++ (N ++ '_' :: '_' :: ("attempt_".data ++ (M ++ '_' :: '_' :: R2))))
      = some (natOfDigits N, natOfDigits M) := by
  have e1 : (N ++ '_' :: '_' :: ("attempt_".data ++ (M ++ '_' :: '_' :: R2))).takeWhile
      Char.isDigit = N := takeWhile_all_append _ hN1 (by decide)
  have e2 : (N ++ '_' :: '_' :: ("attempt_".data ++ (M ++ '_' :: '_' :: R2))).dropWhile
      Char.isDigit = '_' :: '_' :: ("attempt_".data ++ (M ++ '_' :: '_' :: R2)) :=
    dropWhile_all_append _ hN1 (by decide)
  have e3 : (M ++ '_' :: '_' :: R2).takeWhile Char.isDigit = M :=
    takeWhile_all_append _ hM1 (by decide)
  have e4 : (M ++ '_' :: '_' :: R2).dropWhile Char.isDigit = '_' :: '_' :: R2 :=
    dropWhile_all_append _ hM1 (by decide)
  have e5 : oneSep ('_' :: '_' :: ("attempt_".data ++ (M ++ '_' :: '_' :: R2)))
      = some ("attempt_".data ++ (M ++ '_' :: '_' :: R2)) := rfl
  have e6 : sepsStar ("attempt_".data ++ (M ++ '_' :: '_' :: R2))
      = "attempt_".data ++ (M ++ '_' :: '_' :: R2) := rfl
  have e7 : (oneSep ('_' :: '_' :: R2)).isSome = true := rfl
  simp only [extractTurnAttempt, stripLit_self, e1, e2, isEmpty_false_of_ne_nil hN,
    Bool.false_eq_true, if_false, sepsPlus, e5, e6, Option.map_some', e3, e4,
    isEmpty_false_of_ne_nil hM, e7, if_true]

-- Branch-selection helpers for extractAgentL
theorem extractAgentL_nested (l : List Char) (h : l.contains '/' = true) :
    extractAgentL l = (segOrNull (skipTurnSegs (splitChar '/' l)).head?,
      segOrNull ((skipTurnSegs (splitChar '/' l)).drop 1).head?) := by
  unfold extractAgentL
  rw [h]
  simp

theorem extractAgentL_flat (l : List Char) (h1 : hasSub ['_', '_'] l = true)
    (h2 : l.contains '/' = false) :
    extractAgentL l = findAgentFlat (splitUU l) := by
  unfold extractAgentL
  rw [h1, h2]
  simp

-- Piece 3: extractAgentL on canonical nested paths
theorem extractAgentL_slash (N M w d8 d f : List Char)
    (hN1 : ∀ c ∈ N, c.isDigit = true)
    (hM1 : ∀ c ∈ M, c.isDigit = true)
    (hw1 : ∀ c ∈ w, c.isLower = true)
    (h8 : d8.length = 8) (h81 : ∀ c ∈ d8, c.isDigit = true)
    (hd1 : ∀ c ∈ d, c.isDigit = true) :
    extractAgentL
        ("turn_".data ++ (N ++ '/' :: ("attempt_".data ++ (M ++ '/' ::
          ("agent_".data ++ (w ++ '/' :: (d8 ++ '_' :: (d ++ '/' :: f))))))))
      = (some ("agent_".data ++ w), some (d8 ++ '_' :: d)) := by
  rcases d8 with _ | ⟨c0, t0⟩
  · simp at h8
  have hassoc :
      ("turn_".data ++ (N ++ '/' :: ("attempt_".data ++ (M ++ '/' ::
          ("agent_".data ++ (w ++ '/' :: ((c0 :: t0) ++ '_' :: (d ++ '/' :: f))))))))
        = ("turn_".data ++ N) ++ '/' :: (("attempt_".data ++ M) ++ '/' ::
            (("agent_".data ++ w) ++ '/' :: (((c0 :: t0) ++ '_' :: d) ++ '/' :: f))) := by
    simp [List.append_assoc]
  have hA1 : ∀ x ∈ "turn_".data ++ N, x ≠ '/' := by
    intro x hx
    rcases List.mem_append.mp hx with h | h
    · simp only [List.mem_cons, List.not_mem_nil, or_false] at h
      rcases h with rfl | rfl | rfl | rfl | rfl <;> decide
    · exact ne_slash_of_digit (hN1 x h)
  have hA2 : ∀ x ∈ "attempt_".data ++ M, x ≠ '/' := by
    intro x hx
    rcases List.mem_append.mp hx with h | h
    · simp only [List.mem_cons, List.not_mem_nil, or_false] at h
      rcases h with rfl | rfl | rfl | rfl | rfl | rfl | rfl | rfl <;> decide
    · exact ne_slash_of_digit (hM1 x h)
  have hA3 : ∀ x ∈ "agent_".data ++ w, x ≠ '/' := by
    intro x hx
    rcases List.mem_append.mp hx with h | h
    · simp only [List.mem_cons, List.not_mem_nil, or_false] at h
      rcases h with rfl | rfl | rfl | rfl | rfl | rfl <;> decide
    · exact ne_slash_of_lower (hw1 x h)
  have hA4 : ∀ x ∈ (c0 :: t0) ++ '_' :: d, x ≠ '/' := by
    intro x hx
    rcases List.mem_append.mp hx with h | h
    · exact ne_slash_of_digit (h81 x h)
    · rcases List.mem_cons.mp h with rfl | h
      · decide
      · exact ne_slash_of_digit (hd1 x h)
  have hmem : '/' ∈ ("turn_".data ++ (N ++ '/' :: ("attempt_".data ++ (M ++ '/' ::
      ("agent_".data ++ (w ++ '/' :: ((c0 :: t0) ++ '_' :: (d ++ '/' :: f)))))))) := by
    simp
  have hcont : (("turn_".data ++ (N ++ '/' :: ("attempt_".data ++ (M ++ '/' ::
      ("agent_".data ++ (w ++ '/' :: ((c0 :: t0) ++ '_' :: (d ++ '/' :: f)))))))).contains
        '/') = true := List.elem_iff.mpr hmem
  have s1 : splitChar '/' (("turn_".data ++ N) ++ '/' :: (("attempt_".data ++ M) ++ '/' ::
      (("agent_".data ++ w) ++ '/' :: (((c0 :: t0) ++ '_' :: d) ++ '/' :: f))))
      = ("turn_".data ++ N) :: ("attempt_".data ++ M) :: ("agent_".data ++ w) ::
          ((c0 :: t0) ++ '_' :: d) :: splitChar '/' f := by
    rw [splitChar_append _ hA1, splitChar_append _ hA2, splitChar_append _ hA3,
      splitChar_append _ hA4]
  have t1 : "turn_".data.isPrefixOf ("turn_".data ++ N) = true :=
    isPrefixOf_append_self _ _
  have t2 : "turn_".data.isPrefixOf ("attempt_".data ++ M) = false := rfl
  have t3 : "attempt_".data.isPrefixOf ("attempt_".data ++ M) = true :=
    isPrefixOf_append_self _ _
  have t4 : "turn_".data.isPrefixOf ("agent_".data ++ w) = false := rfl
  have t5 : "attempt_".data.isPrefixOf ("agent_".data ++ w) = false := rfl
  have s2 : skipTurnSegs (("turn_".data ++ N) :: ("attempt_".data ++ M) ::
      ("agent_".data ++ w) :: ((c0 :: t0) ++ '_' :: d) :: splitChar '/' f)
      = ("agent_".data ++ w) :: ((c0 :: t0) ++ '_' :: d) :: splitChar '/' f := by
    simp only [skipTurnSegs, t1, t2, t3, t4, t5, Bool.true_or, Bool.false_or,
      if_true, Bool.false_eq_true, if_false]
  rw [extractAgentL_nested _ hcont, hassoc, s1, s2]
  simp only [List.head?_cons, List.drop_succ_cons, List.drop_zero]
  rfl

-- findAgentFlat step lemmas
theorem findAgentFlat_skip {p : List Char} (L : List (List Char))
    (h : ("turn_".data.isPrefixOf p || "attempt_".data.isPrefixOf p) = true) :
    findAgentFlat (p :: L) = findAgentFlat L := by
  conv_lhs => rw [findAgentFlat.eq_def]
  dsimp only
  rw [h]
  simp

theorem findAgentFlat_hit {p : List Char} (L : List (List Char))
    (h1 : ("turn_".data.isPrefixOf p || "attempt_".data.isPrefixOf p) = false)
    (h2 : p ≠ "final".data)
    (h3 : ("agent_".data.isPrefixOf p || matchesAgentPat p) = true) :
    findAgentFlat (p :: L) = (some p,
      match L with
      | q :: _ => if matchesTs q then some q else none
      | [] => none) := by
  conv_lhs => rw [findAgentFlat.eq_def]
  dsimp only
  rw [h1, if_neg h2, h3]
  simp

theorem contains_eq_false_of_not_mem {l : List Char} {c : Char} (h : c ∉ l) :
    l.contains c = false := by
  cases hb : l.contains c
  · rfl
  · exact absurd (List.elem_iff.mp hb) h

-- Piece 4: extractAgentL on flattened canonical paths
theorem extractAgentL_uu (N M w d8 d g : List Char)
    (hN : N ≠ []) (hN1 : ∀ c ∈ N, c.isDigit = true)
    (hM : M ≠ []) (hM1 : ∀ c ∈ M, c.isDigit = true)
    (hw : w ≠ []) (hw1 : ∀ c ∈ w, c.isLower = true)
    (h8 : d8.length = 8) (h81 : ∀ c ∈ d8, c.isDigit = true)
    (hd : d ≠ []) (hd1 : ∀ c ∈ d, c.isDigit = true)
    (hns : (("turn_".data ++ (N ++ '_' :: '_' :: ("attempt_".data ++ (M ++ '_' :: '_' ::
        ("agent_".data ++ (w ++ '_' :: '_' :: (d8 ++ '_' :: (d ++ '_' :: '_' ::
          g)))))))).contains '/') = false) :
    extractAgentL
        ("turn_".data ++ (N ++ '_' :: '_' :: ("attempt_".data ++ (M ++ '_' :: '_' ::
          ("agent_".data ++ (w ++ '_' :: '_' :: (d8 ++ '_' :: (d ++ '_' :: '_' :: g))))))))
      = (some ("agent_".data ++ w), some (d8 ++ '_' :: d)) := by
  have hd8ne : d8 ≠ [] := by
    intro hnil
    rw [hnil] at h8
    simp at h8
  have huu : hasSub ['_', '_']
      ('_' :: '_' :: ("attempt_".data ++ (M ++ '_' :: '_' :: ("agent_".data ++ (w ++
        '_' :: '_' :: (d8 ++ '_' :: (d ++ '_' :: '_' :: g))))))) = true := by
    simp [hasSub, List.isPrefixOf]
  have h1 : hasSub ['_', '_']
      ("turn_".data ++ (N ++ '_' :: '_' :: ("attempt_".data ++ (M ++ '_' :: '_' ::
        ("agent_".data ++ (w ++ '_' :: '_' :: (d8 ++ '_' :: (d ++ '_' :: '_' ::
          g)))))))) = true :=
    hasSub_append _ _ _ (hasSub_append _ _ _ huu)
  have u1 : noUU2 ("turn_".data ++ N) = true := by
    show noUU2 ("turn".data ++ '_' :: N) = true
    exact noUU2_single_us (by decide) (by decide)
      (fun c hc => ne_us_of_digit (hN1 c hc)) hN
  have u2 : noUU2 ("attempt_".data ++ M) = true := by
    show noUU2 ("attempt".data ++ '_' :: M) = true
    exact noUU2_single_us (by decide) (by decide)
      (fun c hc => ne_us_of_digit (hM1 c hc)) hM
  have u3 : noUU2 ("agent_".data ++ w) = true := by
    show noUU2 ("agent".data ++ '_' :: w) = true
    exact noUU2_single_us (by decide) (by decide)
      (fun c hc => ne_us_of_lower (hw1 c hc)) hw
  have u4 : noUU2 (d8 ++ '_' :: d) = true :=
    noUU2_single_us (fun c hc => ne_us_of_digit (h81 c hc)) hd8ne
      (fun c hc => ne_us_of_digit (hd1 c hc)) hd
  have hassoc :
      ("turn_".data ++ (N ++ '_' :: '_' :: ("attempt_".data ++ (M ++ '_' :: '_' ::
          ("agent_".data ++ (w ++ '_' :: '_' :: (d8 ++ '_' :: (d ++ '_' :: '_' :: g))))))))
        = ("turn_".data ++ N) ++ '_' :: '_' :: (("attempt_".data ++ M) ++ '_' :: '_' ::
            (("agent_".data ++ w) ++ '_' :: '_' :: ((d8 ++ '_' :: d) ++ '_' :: '_' ::
              g))) := by
    simp [List.append_assoc]
  have s1 : splitUU (("turn_".data ++ N) ++ '_' :: '_' :: (("attempt_".data ++ M) ++
      '_' :: '_' :: (("agent_".data ++ w) ++ '_' :: '_' :: ((d8 ++ '_' :: d) ++
        '_' :: '_' :: g))))
      = ("turn_".data ++ N) :: ("attempt_".data ++ M) :: ("agent_".data ++ w) ::
          (d8 ++ '_' :: d) :: splitUU g := by
    rw [splitUU_append_uu _ u1, splitUU_append_uu _ u2, splitUU_append_uu _ u3,
      splitUU_append_uu _ u4]
  have t1 : ("turn_".data.isPrefixOf ("turn_".data ++ N)
      || "attempt_".data.isPrefixOf ("turn_".data ++ N)) = true := by
    rw [isPrefixOf_append_self]
    rfl
  have t2 : ("turn_".data.isPrefixOf ("attempt_".data ++ M)
      || "attempt_".data.isPrefixOf ("attempt_".data ++ M)) = true := by
    rw [isPrefixOf_append_self]
    simp
  have t3 : ("turn_".data.isPrefixOf ("agent_".data ++ w)
      || "attempt_".data.isPrefixOf ("agent_".data ++ w)) = false := rfl
  have t4 : ("agent_".data ++ w) ≠ "final".data := by simp
  have t5 : ("agent_".data.isPrefixOf ("agent_".data ++ w)
      || matchesAgentPat ("agent_".data ++ w)) = true := by
    rw [isPrefixOf_append_self]
    rfl
  rw [extractAgentL_flat _ h1 hns, hassoc, s1, findAgentFlat_skip _ t1,
    findAgentFlat_skip _ t2, findAgentFlat_hit _ t3 t4 t5]
  dsimp only
  rw [matchesTs_true h8 h81 hd hd1]
  simp

/-- C2: for canonical nested paths `turn_N/attempt_M/agent_w/TS/file` (N, M
nonempty digit strings, w a nonempty lowercase suffix, TS eight digits then
an underscore then digits), classification recovers turn N, attempt M, agent
id `agent_w` and timestamp TS, and classifying the `__`-flattened path
recovers exactly the same identity. -/
theorem C2_roundtrip_amended (N M w d8 d f : List Char)
    (hN : N ≠ []) (hN1 : ∀ c ∈ N, c.isDigit = true)
    (hM : M ≠ []) (hM1 : ∀ c ∈ M, c.isDigit = true)
    (hw : w ≠ []) (hw1 : ∀ c ∈ w, c.isLower = true)
    (h8 : d8.length = 8) (h81 : ∀ c ∈ d8, c.isDigit = true)
    (hd : d ≠ []) (hd1 : ∀ c ∈ d, c.isDigit = true) :
    classifyL ("turn_".data ++ (N ++ '/' :: ("attempt_".data ++ (M ++ '/' ::
        ("agent_".data ++ (w ++ '/' :: (d8 ++ '_' :: (d ++ '/' :: f))))))))
      = ⟨some (natOfDigits N), some (natOfDigits M),
         some (String.mk ("agent_".data ++ w)), some (String.mk (d8 ++ '_' :: d))⟩ ∧
    classifyL (flattenL ("turn_".data ++ (N ++ '/' :: ("attempt_".data ++ (M ++ '/' ::
        ("agent_".data ++ (w ++ '/' :: (d8 ++ '_' :: (d ++ '/' :: f)))))))))
      = ⟨some (natOfDigits N), some (natOfDigits M),
         some (String.mk ("agent_".data ++ w)), some (String.mk (d8 ++ '_' :: d))⟩ := by
  have fN : flattenL N = N := flattenL_id (fun c hc => ne_slash_of_digit (hN1 c hc))
  have fM : flattenL M = M := flattenL_id (fun c hc => ne_slash_of_digit (hM1 c hc))
  have fw : flattenL w = w := flattenL_id (fun c hc => ne_slash_of_lower (hw1 c hc))
  have f8 : flattenL d8 = d8 := flattenL_id (fun c hc => ne_slash_of_digit (h81 c hc))
  have fd : flattenL d = d := flattenL_id (fun c hc => ne_slash_of_digit (hd1 c hc))
  have hflat : flattenL ("turn_".data ++ (N ++ '/' :: ("attempt_".data ++ (M ++ '/' ::
      ("agent_".data ++ (w ++ '/' :: (d8 ++ '_' :: (d ++ '/' :: f))))))))
      = "turn_".data ++ (N ++ '_' :: '_' :: ("attempt_".data ++ (M ++ '_' :: '_' ::
          ("agent_".data ++ (w ++ '_' :: '_' :: (d8 ++ '_' :: (d ++ '_' :: '_' ::
            flattenL f))))))) := by
    simp [flattenL_append, flattenL, fN, fM, fw, f8, fd]
  have hta1 := extractTurnAttempt_slash N M
    ("agent_".data ++ (w ++ '/' :: (d8 ++ '_' :: (d ++ '/' :: f)))) hN hN1 hM hM1
  have hag1 := extractAgentL_slash N M w d8 d f hN1 hM1 hw1 h8 h81 hd1
  have hns : (("turn_".data ++ (N ++ '_' :: '_' :: ("attempt_".data ++ (M ++ '_' ::
      '_' :: ("agent_".data ++ (w ++ '_' :: '_' :: (d8 ++ '_' :: (d ++ '_' :: '_' ::
        flattenL f)))))))).contains '/') = false :=
    contains_eq_false_of_not_mem (by
      rw [← hflat]
      exact slash_not_mem_flattenL _)
  have hta2 := extractTurnAttempt_uu N M
    ("agent_".data ++ (w ++ '_' :: '_' :: (d8 ++ '_' :: (d ++ '_' :: '_' ::
      flattenL f)))) hN hN1 hM hM1
  have hag2 := extractAgentL_uu N M w d8 d (flattenL f) hN hN1 hM hM1 hw hw1 h8 h81
    hd hd1 hns
  refine ⟨?_, ?_⟩
  · unfold classifyL
    rw [hta1, hag1]
    rfl
  · rw [hflat]
    unfold classifyL
    rw [hta2, hag2]
    rfl

-- closed instantiation of the round-trip theorem
theorem C2_roundtrip_amended_witness :
    classifyL ("turn_".data ++ (['1'] ++ '/' :: ("attempt_".data ++ (['2'] ++ '/' ::
        ("agent_".data ++ (['a'] ++ '/' :: ("20250101".data ++ '_' :: (['0'] ++ '/' ::
          "answer.txt".data))))))))
      = ⟨some (natOfDigits ['1']), some (natOfDigits ['2']),
         some (String.mk ("agent_".data ++ ['a'])),
         some (String.mk ("20250101".data ++ '_' :: ['0']))⟩ ∧
    classifyL (flattenL ("turn_".data ++ (['1'] ++ '/' :: ("attempt_".data ++ (['2'] ++
        '/' :: ("agent_".data ++ (['a'] ++ '/' :: ("20250101".data ++ '_' :: (['0'] ++
          '/' :: "answer.txt".data)))))))))
      = ⟨some (natOfDigits ['1']), some (natOfDigits ['2']),
         some (String.mk ("agent_".data ++ ['a'])),
         some (String.mk ("20250101".data ++ '_' :: ['0']))⟩ :=
  C2_roundtrip_amended ['1'] ['2'] ['a'] "20250101".data ['0'] "answer.txt".data
    (by decide) (by decide) (by decide) (by decide) (by decide) (by decide)
    (by decide) (by decide) (by decide) (by decide)
end MGV
